import Mathlib

/-!
# Verification of the pi-acp bridge core

Shallow embedding of the pi-acp repository's bridge core:

* `src/acp/session.ts` — `PiAcpSession`: turn serialization (single-flight
  FIFO queue), cooperative cancellation, event translation (monotonic
  tool-call status), diff synthesis from edit snapshots, and the ordered
  per-session emission chain;
* `src/pi-rpc/process.ts` — `PiRpcProcess`: correlation of commands to
  responses over a line-delimited JSON subprocess channel;
* `src/acp/agent.ts` — the external ACP stop-reason mapping in
  `PiAcpAgent.prompt`.

The TypeScript code is single-threaded and event-driven; each externally
triggered callback (an ACP call, a subprocess event, a settled write)
runs to completion before the next.  We model each such callback as one
`Op` consumed by an explicit step function over a session-state record,
producing the list of observable effects (notifications handed to the
emission chain, commands sent to the subprocess, resolutions of turn
futures) in program order.  File reads performed inside a callback
(`readFileSync`) are modelled by a snapshot of the file system carried on
the triggering event.  The asynchronous delivery of notifications (the
`lastEmit` promise chain) is modelled separately as a queue over which
emission and settlement actions interleave.
-/

namespace PiAcp

/-- `StopReason` from `src/acp/session.ts`:
`'end_turn' | 'cancelled' | 'error'`. -/
inductive StopReason where
  | endTurn
  | cancelled
  | error
deriving DecidableEq, Repr

/-- ACP tool-call status values used by `session.ts`
(`pending`, `in_progress`, `completed`, `failed`). -/
inductive AcpStatus where
  | pending
  | inProgress
  | completed
  | failed
deriving DecidableEq, Repr

/-- ACP `ToolKind` as produced by `toToolKind` (`read`, `edit`, `other`). -/
inductive ToolKind where
  | read
  | edit
  | other
deriving DecidableEq, Repr

/-- `toToolKind` from `src/acp/session.ts`: `read ↦ read`,
`write`/`edit ↦ edit`, anything else (including `bash`) `↦ other`. -/
def toToolKind (toolName : String) : ToolKind :=
  if toolName = "read" then .read
  else if toolName = "write" then .edit
  else if toolName = "edit" then .edit
  else .other

/-- One element of a `ToolCallContent[]` array attached to a tool-call
update: either a plain-text content block or a structured diff block
(`{type:"diff", path, oldText, newText}`). -/
inductive ToolCallContent where
  | contentText (text : String)
  | diff (path oldText newText : String)
deriving DecidableEq, Repr

/-- The `session/update` notification payloads emitted by
`PiAcpSession` (`src/acp/session.ts`).  Fields that no claim depends on
(`kind`/`title` are kept; `rawInput`/`rawOutput`/`_meta` details are
dropped — they are opaque passthrough data). -/
inductive SessionUpdate where
  | agentMessageChunk (text : String)
  | agentThoughtChunk (text : String)
  | sessionInfoUpdate (queueDepth : Nat) (running : Bool)
  | toolCall (toolCallId title : String) (kind : ToolKind) (status : AcpStatus)
  | toolCallUpdate (toolCallId : String) (status : AcpStatus)
      (content : Option (List ToolCallContent))
deriving DecidableEq, Repr

/-- Internal tool-call record status tracked in
`PiAcpSession.currentToolCalls : Map<string,'pending'|'in_progress'>`. -/
inductive PiToolStatus where
  | pending
  | inProgress
deriving DecidableEq, Repr

/-- The ACP status corresponding to a tracked internal status (the
`status` variable in the `toolcall_*` branch of `handlePiEvent`). -/
def acpOfPi : PiToolStatus → AcpStatus
  | .pending => .pending
  | .inProgress => .inProgress

/-! ### String-keyed maps

`currentToolCalls` and `editSnapshots` are JS `Map`s; we embed them as
association lists in insertion order with the `Map.get`/`set`/`delete`
operations used by `session.ts`. -/

/-- `Map.get` — the value stored at `k`, if any.  (JS `Map` keys are
unique; the maps below are only ever built through `mapSet`/`mapErase`,
which preserve that.) -/
def mapLookup {α : Type} : List (String × α) → String → Option α
  | [], _ => none
  | p :: t, k => if p.1 = k then some p.2 else mapLookup t k

/-- `Map.set` — update the entry in place if the key is present, else
append. -/
def mapSet {α : Type} : List (String × α) → String → α → List (String × α)
  | [], k, v => [(k, v)]
  | p :: t, k, v => if p.1 = k then (k, v) :: t else p :: mapSet t k v

/-- `Map.delete`. -/
def mapErase {α : Type} : List (String × α) → String → List (String × α)
  | [], _ => []
  | p :: t, k => if p.1 = k then mapErase t k else p :: mapErase t k

/-- A snapshot of the file system as visible to one synchronous
callback: path ↦ file text.  `readFile` returns `none` where
`readFileSync` would throw (file missing/unreadable). -/
abbrev FileSys : Type := List (String × String)

/-- `readFileSync(abs, 'utf8')`, `none` on failure. -/
def readFile (fs : FileSys) (abs : String) : Option String :=
  mapLookup fs abs

/-- `isAbsolute(p) ? p : resolvePath(this.cwd, p)` — paths are treated
as plain strings, with absoluteness read off a leading slash
(tested on the character list, which the kernel can evaluate). -/
def resolveAbs (cwd p : String) : String :=
  if p.data.head? = some '/' then p else cwd ++ "/" ++ p

/-- JS string truthiness for an optional string field
(`null`/`""` are falsy). -/
def truthyStr (o : Option String) : Bool :=
  match o with
  | some t => t ≠ ""
  | none => false

/-! ### Session state (`PiAcpSession` fields) -/

/-- The mutable per-session state of `PiAcpSession`
(`src/acp/session.ts`).  Turns are identified by the order in which
`prompt()` calls create them (`nextTurnId` is the allocator); the
TypeScript code identifies a turn by its closure, which our effect
trace names by this id.  `turnQueue` stores `(turnId, message)` with the
message already slash-expanded, exactly as `QueuedTurn.message` is. -/
structure SessionState where
  startupInfo : Option String
  startupInfoSent : Bool
  cancelRequested : Bool
  pendingTurn : Option Nat
  turnQueue : List (Nat × String)
  currentToolCalls : List (String × PiToolStatus)
  editSnapshots : List (String × String × String)
  inAgentLoop : Bool
  nextTurnId : Nat
deriving DecidableEq, Repr

/-- The state of a freshly constructed session. -/
def initSession : SessionState :=
  { startupInfo := none
    startupInfoSent := false
    cancelRequested := false
    pendingTurn := none
    turnQueue := []
    currentToolCalls := []
    editSnapshots := []
    inAgentLoop := false
    nextTurnId := 0 }

/-- Observable effects of one callback, in program order:
notifications appended to the emission chain (`emit`), commands written
to the subprocess (`proc.prompt` / `proc.abort`), and settlements of
turn futures (`resolve` with a stop reason, or `reject` — the
auth-required rejection path). -/
inductive Effect where
  | emit (u : SessionUpdate)
  | sendPrompt (turnId : Nat) (message : String)
  | sendAbort
  | resolveTurn (turnId : Nat) (reason : StopReason)
  | rejectTurn (turnId : Nat)
deriving DecidableEq, Repr

/-- Per-session collaborators that `PiAcpSession` closes over: the
working directory used by `resolvePath`, and `expandSlashCommand`
(external collaborator, from `slash-commands.ts`) as an opaque
function. -/
structure SessCfg where
  cwd : String
  expand : String → String

/-- The subprocess events consumed by `handlePiEvent`, restricted to
the data the handler actually reads.  `toolcallEvt` covers the three
`message_update` sub-events `toolcall_start`/`toolcall_delta`/
`toolcall_end` (the handler treats them identically), carrying the
extracted tool-call id and name.  `toolExecStart`/`toolExecEnd` carry
the file-system snapshot seen by their synchronous `readFileSync`
calls; `text` stands for `toolResultToText(result)` (`""` when
falsy). -/
inductive PiEvent where
  | textDelta (delta : String)
  | thinkingDelta (delta : String)
  | toolcallEvt (toolCallId toolName : String)
  | toolExecStart (toolCallId toolName : String) (argsPath : Option String) (fs : FileSys)
  | toolExecUpdate (toolCallId : String) (text : String)
  | toolExecEnd (toolCallId : String) (isError : Bool) (text : String) (fs : FileSys)
  | agentStart
  | turnEnd
  | agentEnd
  | unknownEvt
deriving DecidableEq, Repr

/-- One externally triggered callback on the session: an ACP
`prompt()` call, an ACP `cancel()` call, a subprocess event delivered
to `handlePiEvent`, or the `.catch` continuation installed by
`startTurn` firing because `proc.prompt(...)` failed
(`promptCmdFailed true` is the case where `maybeAuthRequiredError`
recognised the failure as auth-required). -/
inductive Op where
  | promptCall (message : String)
  | cancelCall
  | piEvent (ev : PiEvent)
  | promptCmdFailed (authLike : Bool)
deriving DecidableEq, Repr

/-! ### Session transition functions (one per method of `PiAcpSession`) -/

/-- `PiAcpSession.startTurn`: reset the cancellation flag and loop
marker, record the pending turn, publish queue depth, and issue the
subprocess prompt command. -/
def startTurn (t : Nat × String) (s : SessionState) :
    SessionState × List Effect :=
  ({ s with cancelRequested := false
            inAgentLoop := false
            pendingTurn := some t.1 },
   [ .emit (.sessionInfoUpdate s.turnQueue.length true),
     .sendPrompt t.1 t.2 ])

/-- The tail of `PiAcpSession.prompt` after the startup-info block:
expand slash commands, then either enqueue (emitting the queue-position
chunk and queue-depth metadata) or start immediately. -/
def promptEnqueue (cfg : SessCfg) (message : String) (s0 : SessionState) :
    SessionState × List Effect :=
  let expanded := cfg.expand message
  let tid := s0.nextTurnId
  let s1 := { s0 with nextTurnId := tid + 1 }
  if s1.pendingTurn.isSome then
    let q := s1.turnQueue ++ [(tid, expanded)]
    ({ s1 with turnQueue := q },
     [ .emit (.agentMessageChunk s!"Queued message (position {q.length})."),
       .emit (.sessionInfoUpdate q.length true) ])
  else
    startTurn (tid, expanded) s1

/-- `PiAcpSession.prompt` (the synchronous body, including the
synchronously-run promise executor): emit pending startup info first if
any, then enqueue or start the turn. -/
def promptStep (cfg : SessCfg) (message : String) (s : SessionState) :
    SessionState × List Effect :=
  if ¬ s.startupInfoSent ∧ truthyStr s.startupInfo then
    let r := promptEnqueue cfg message { s with startupInfoSent := true }
    (r.1, Effect.emit (.agentMessageChunk (s.startupInfo.getD "")) :: r.2)
  else
    promptEnqueue cfg message s

/-- `PiAcpSession.cancel`: set the cancellation flag; if the queue is
non-empty, drain it, resolving every queued turn `cancelled` (in queue
order) and publishing the cleared queue; finally issue the abort
command. -/
def cancelStep (s : SessionState) : SessionState × List Effect :=
  let s1 := { s with cancelRequested := true }
  if s1.turnQueue.length ≠ 0 then
    let s2 := { s1 with turnQueue := [] }
    (s2,
     (s1.turnQueue.map (fun t => Effect.resolveTurn t.1 .cancelled)) ++
       [ .emit (.agentMessageChunk "Cleared queued prompts."),
         .emit (.sessionInfoUpdate 0 s2.pendingTurn.isSome),
         .sendAbort ])
  else
    (s1, [ .sendAbort ])

/-- The `.catch` handler installed on `proc.prompt(...)` by
`startTurn`: reject the pending turn when the failure looks
auth-required, otherwise resolve it `cancelled`/`error` according to
the cancellation flag at that moment; clear the pending turn and
publish queue depth with `running:false`.  The next queued prompt is
deliberately *not* started. -/
def promptFailStep (authLike : Bool) (s : SessionState) :
    SessionState × List Effect :=
  let settle : List Effect :=
    match s.pendingTurn with
    | some tid =>
        if authLike then [ .rejectTurn tid ]
        else
          [ .resolveTurn tid (if s.cancelRequested then .cancelled else .error) ]
    | none => []
  let s1 := { s with pendingTurn := none, inAgentLoop := false }
  (s1, settle ++ [ .emit (.sessionInfoUpdate s1.turnQueue.length false) ])

/-- The `toolcall_start`/`toolcall_delta`/`toolcall_end` branch of
`handlePiEvent`: on first sighting record the id as `pending` and emit
a `tool_call`; on a repeat sighting emit a `tool_call_update` carrying
the *existing* status (never downgrading). -/
def toolcallEvtStep (toolCallId toolName : String) (s : SessionState) :
    SessionState × List Effect :=
  if toolCallId = "" then (s, [])
  else
    match mapLookup s.currentToolCalls toolCallId with
    | none =>
        ({ s with currentToolCalls :=
             mapSet s.currentToolCalls toolCallId .pending },
         [ .emit (.toolCall toolCallId toolName (toToolKind toolName) .pending) ])
    | some st =>
        (s, [ .emit (.toolCallUpdate toolCallId (acpOfPi st) none) ])

/-- The `tool_execution_start` branch of `handlePiEvent`: snapshot the
target file for `edit` tool calls (best-effort), then mark the id
`in_progress`, emitting `tool_call` on first sighting and
`tool_call_update` otherwise. -/
def toolExecStartStep (cfg : SessCfg) (toolCallId toolName : String)
    (argsPath : Option String) (fs : FileSys) (s : SessionState) :
    SessionState × List Effect :=
  let s1 : SessionState :=
    if toolName = "edit" then
      match argsPath with
      | some p =>
          match readFile fs (resolveAbs cfg.cwd p) with
          | some oldText =>
              { s with editSnapshots :=
                  mapSet s.editSnapshots toolCallId (p, oldText) }
          | none => s
      | none => s
    else s
  if (mapLookup s1.currentToolCalls toolCallId).isSome then
    ({ s1 with currentToolCalls :=
         mapSet s1.currentToolCalls toolCallId .inProgress },
     [ .emit (.toolCallUpdate toolCallId .inProgress none) ])
  else
    ({ s1 with currentToolCalls :=
         mapSet s1.currentToolCalls toolCallId .inProgress },
     [ .emit (.toolCall toolCallId toolName (toToolKind toolName) .inProgress) ])

/-- The `tool_execution_update` branch: forward partial output as an
`in_progress` update. -/
def toolExecUpdateStep (toolCallId text : String) (s : SessionState) :
    SessionState × List Effect :=
  if toolCallId = "" then (s, [])
  else
    (s, [ .emit (.toolCallUpdate toolCallId .inProgress
            (if text ≠ "" then some [ .contentText text ] else none)) ])

/-- The content array attached by the `tool_execution_end` branch: a
diff block (followed by the plain-text block, when non-empty) when a
snapshot exists, the outcome is not an error, the re-read succeeds and
the content changed; otherwise the plain-text fallback. -/
def toolEndContent (cfg : SessCfg) (snapshot : Option (String × String))
    (isError : Bool) (text : String) (fs : FileSys) :
    Option (List ToolCallContent) :=
  let diffContent : Option (List ToolCallContent) :=
    if isError then none
    else
      match snapshot with
      | some (p, oldText) =>
          match readFile fs (resolveAbs cfg.cwd p) with
          | some newText =>
              if newText ≠ oldText then
                some ([ .diff p oldText newText ] ++
                  (if text ≠ "" then [ .contentText text ] else []))
              else none
          | none => none
      | none => none
  match diffContent with
  | some c => some c
  | none => if text ≠ "" then some [ .contentText text ] else none

/-- The `tool_execution_end` branch of `handlePiEvent`: emit the
terminal `tool_call_update` (`failed` on `isError`, else `completed`)
with the synthesized content, then delete the tool-call record and the
edit snapshot. -/
def toolExecEndStep (cfg : SessCfg) (toolCallId : String) (isError : Bool)
    (text : String) (fs : FileSys) (s : SessionState) :
    SessionState × List Effect :=
  if toolCallId = "" then (s, [])
  else
    let snapshot := mapLookup s.editSnapshots toolCallId
    ({ s with currentToolCalls := mapErase s.currentToolCalls toolCallId
              editSnapshots := mapErase s.editSnapshots toolCallId },
     [ .emit (.toolCallUpdate toolCallId (if isError then .failed else .completed)
         (toolEndContent cfg snapshot isError text fs)) ])

/-- The `agent_end` branch of `handlePiEvent` (the body of its
`flushEmits().finally(...)` continuation): resolve the pending turn
(`cancelled` if the flag is set, else `end_turn`), clear it, then start
the next queued turn if any (announcing it), else publish the idle
queue state. -/
def agentEndStep (s : SessionState) : SessionState × List Effect :=
  let settle : List Effect :=
    match s.pendingTurn with
    | some tid =>
        [ .resolveTurn tid (if s.cancelRequested then .cancelled else .endTurn) ]
    | none => []
  let s1 := { s with pendingTurn := none, inAgentLoop := false }
  match s1.turnQueue with
  | next :: rest =>
      let s2 := { s1 with turnQueue := rest }
      let r := startTurn next s2
      (r.1,
       settle ++
         [ .emit (.agentMessageChunk
             s!"Starting queued message. ({rest.length} remaining)") ] ++ r.2)
  | [] =>
      (s1, settle ++ [ .emit (.sessionInfoUpdate 0 false) ])

/-- `PiAcpSession.handlePiEvent`, dispatching on the event type.
`text_delta` and `thinking`/`reasoning`/`thought` deltas become message
and thought chunks; `agent_start` sets the loop marker; `turn_end` is
deliberately ignored; unknown events are dropped. -/
def handlePiEvent (cfg : SessCfg) (ev : PiEvent) (s : SessionState) :
    SessionState × List Effect :=
  match ev with
  | .textDelta d => (s, [ .emit (.agentMessageChunk d) ])
  | .thinkingDelta d => (s, [ .emit (.agentThoughtChunk d) ])
  | .toolcallEvt id name => toolcallEvtStep id name s
  | .toolExecStart id name argsPath fs => toolExecStartStep cfg id name argsPath fs s
  | .toolExecUpdate id text => toolExecUpdateStep id text s
  | .toolExecEnd id isError text fs => toolExecEndStep cfg id isError text fs s
  | .agentStart => ({ s with inAgentLoop := true }, [])
  | .turnEnd => (s, [])
  | .agentEnd => agentEndStep s
  | .unknownEvt => (s, [])

/-- One externally triggered callback on the session. -/
def step (cfg : SessCfg) (s : SessionState) : Op → SessionState × List Effect
  | .promptCall m => promptStep cfg m s
  | .cancelCall => cancelStep s
  | .piEvent ev => handlePiEvent cfg ev s
  | .promptCmdFailed b => promptFailStep b s

/-- Run a sequence of callbacks, concatenating their effect traces. -/
def runOps (cfg : SessCfg) (s : SessionState) : List Op → SessionState × List Effect
  | [] => (s, [])
  | op :: ops =>
      let r1 := step cfg s op
      let r2 := runOps cfg r1.1 ops
      (r2.1, r1.2 ++ r2.2)

/-! ### The emission chain (`emit` / `flushEmits`)

`PiAcpSession.emit` chains every notification onto the private
`lastEmit` promise:
`lastEmit = lastEmit.then(() => conn.sessionUpdate(...)).catch(() => {})`.
Operationally this is a single-consumer FIFO: notifications are
appended in generation order, and the event loop dispatches the head
to the transport, appending the next dispatch only once the previous
delivery has settled.  The `.catch` makes a rejected delivery settle
the link exactly like an accepted one, so the chain never stalls and
`flushEmits` (awaiting `lastEmit`) never rejects.  We model the chain
as a queue and the interleaving of emissions and settlements as an
action list. -/

/-- Result of one `conn.sessionUpdate` delivery: the transport accepted
the notification, or rejected it (client gone away). -/
inductive DeliveryResult where
  | accepted
  | rejected
deriving DecidableEq, Repr

/-- The state of one session's emission chain: notifications chained
but not yet settled (head = currently dispatched / next to dispatch),
and the settled deliveries in dispatch order with their results. -/
structure Wire where
  queued : List SessionUpdate
  dispatched : List (SessionUpdate × DeliveryResult)
deriving DecidableEq, Repr

/-- An empty emission chain (`lastEmit = Promise.resolve()`). -/
def wireInit : Wire := { queued := [], dispatched := [] }

/-- One asynchronous turn of the emission machinery: `emitA u` is a
call to `emit` appending `u` to the chain; `settleA r` is the settlement
of the delivery at the head of the chain with result `r` — thanks to
the `.catch`, the chain advances on `rejected` exactly as on
`accepted`.  A settlement with an empty chain is a no-op. -/
inductive WAction where
  | emitA (u : SessionUpdate)
  | settleA (r : DeliveryResult)
deriving DecidableEq, Repr

/-- Step the emission chain by one action. -/
def wstep (w : Wire) : WAction → Wire
  | .emitA u => { w with queued := w.queued ++ [u] }
  | .settleA r =>
      match w.queued with
      | [] => w
      | u :: rest =>
          { queued := rest, dispatched := w.dispatched ++ [(u, r)] }

/-- Run a list of emission-chain actions. -/
def wrun (w : Wire) : List WAction → Wire
  | [] => w
  | a :: acts => wrun (wstep w a) acts

/-- The notifications generated by an action list, in generation
order. -/
def emitsOf : List WAction → List SessionUpdate
  | [] => []
  | .emitA u :: acts => u :: emitsOf acts
  | .settleA _ :: acts => emitsOf acts

/-! ### The subprocess channel (`src/pi-rpc/process.ts`) -/

/-- An inbound `{type:"response", id, command, success, data?, error?}`
line.  `data` is carried as its JSON serialization (the channel treats
it opaquely). -/
structure PiRpcResponse where
  id : Option String
  command : String
  success : Bool
  data : Option String
  error : Option String
deriving DecidableEq, Repr

/-- A successfully parsed stdout line: a response-shaped object or any
other object (an event). -/
inductive RpcMsg where
  | response (r : PiRpcResponse)
  | eventMsg (payload : String)
deriving DecidableEq, Repr

/-- One raw stdout line as seen by the `readline` handler: blank,
unparseable JSON, or a parsed message. -/
inductive RpcLine where
  | blank
  | malformed (raw : String)
  | parsed (m : RpcMsg)
deriving DecidableEq, Repr

/-- `PiRpcProcess` bookkeeping: the correlation ids of commands sent
and not yet resolved (`this.pending`), in insertion order. -/
structure RpcState where
  pending : List String
deriving DecidableEq, Repr

/-- The `exit` error constructed by the `child.on("exit")` handler —
`new Error('pi process exited (code=..., signal=...)')`, modelled
structurally so the exposed exit code and signal are explicit. -/
structure ProcessExitError where
  code : Option Int
  signal : Option String
deriving DecidableEq, Repr

/-- Observable outcomes of the channel's inbound handlers: resolving a
pending call with the full response, rejecting every pending call on
process exit, rejecting a call whose stdin write failed, or routing a
non-correlated message to the subscribed event handlers. -/
inductive RpcOut where
  | resolveCall (id : String) (resp : PiRpcResponse)
  | rejectExit (id : String) (err : ProcessExitError)
  | rejectWrite (id : String)
  | routeEvent (m : RpcMsg)
deriving DecidableEq, Repr

/-- The `rl.on("line")` handler: blank and malformed lines are dropped;
a response line whose id matches a pending call resolves that call
(removing it); every other parsed line — including response-shaped
lines with no id or an unknown id — is routed to the event
handlers. -/
def handleLine (s : RpcState) : RpcLine → RpcState × List RpcOut
  | .blank => (s, [])
  | .malformed _ => (s, [])
  | .parsed m =>
      match m with
      | .response r =>
          match r.id with
          | some id =>
              if s.pending.contains id then
                ({ pending := s.pending.filter (fun x => ¬ x = id) },
                 [ .resolveCall id r ])
              else (s, [ .routeEvent m ])
          | none => (s, [ .routeEvent m ])
      | .eventMsg _ => (s, [ .routeEvent m ])

/-- The `child.on("exit")` handler: reject every pending call with a
process-exited error carrying the exit code and signal, then clear the
pending map. -/
def handleExit (s : RpcState) (code : Option Int) (signal : Option String) :
    RpcState × List RpcOut :=
  ({ pending := [] },
   s.pending.map (fun id => RpcOut.rejectExit id ⟨code, signal⟩))

/-- `PiRpcProcess.request`: register the fresh correlation id, write
the command line; if the write itself fails, unregister and reject. -/
def request (s : RpcState) (id : String) (writeOk : Bool) :
    RpcState × List RpcOut :=
  if writeOk then ({ pending := s.pending ++ [id] }, [])
  else (s, [ .rejectWrite id ])

/-- The failure detail used by the `prompt`/`abort`/`get_state`
wrappers: `res.error ?? JSON.stringify(res.data)` (the stringification
of an absent `data` renders as `"undefined"`). -/
def failDetail (r : PiRpcResponse) : String :=
  match r.error with
  | some e => e
  | none => r.data.getD "undefined"

/-- The call-level outcome a wrapper such as `PiRpcProcess.getState`
derives from the resolved response: the response's data on
`success:true`, a thrown error carrying the failure detail on
`success:false` (`throw new Error('pi <cmd> failed: ...')`). -/
def piCallResult (cmdName : String) (r : PiRpcResponse) :
    Except String (Option String) :=
  if r.success then .ok r.data
  else
    let detail := failDetail r
    .error s!"pi {cmdName} failed: {detail}"

/-! ### Session creation and spawn-error classification -/

/-- Modelled from the spec: the `PiRpcSpawnError` thrown by
`PiRpcProcess.spawn` is referenced by `SessionManager.create`
(`src/acp/session.ts`) and by `agent.ts`, but the class itself is not
part of the sources under review; per the spec it is "a *spawn error*
carrying a system error code" (e.g. `ENOENT` for a missing
executable), classified distinctly from an application-level command
failure.  A spawn attempt thus either yields a live process or such an
error. -/
inductive SpawnResult where
  | ok
  | spawnError (code : String) (message : String)
deriving DecidableEq, Repr

/-- The error surfaced by `SessionManager.create`:
`RequestError.internalError({ code }, message)` for a spawn error
(carrying the system error code as structured data), or an arbitrary
rethrown error. -/
inductive CreateError where
  | internalError (code : Option String) (message : String)
  | other (message : String)
deriving DecidableEq, Repr

/-- `SessionManager.create` (`src/acp/session.ts`), up to the produced
session id: a spawn error becomes `RequestError.internalError` carrying
the system error code; after a successful spawn the `getState`
handshake is attempted and its failure is swallowed (`state = null`),
so an application-level command failure never fails creation.  The
returned flag records whether handshake state was available. -/
def sessionManagerCreate (sp : SpawnResult)
    (getStateRes : Except String (Option String)) :
    Except CreateError Bool :=
  match sp with
  | .spawnError code msg => .error (.internalError (some code) msg)
  | .ok =>
      match getStateRes with
      | .ok _ => .ok true
      | .error _ => .ok false

/-! ### External stop-reason mapping (`src/acp/agent.ts`) -/

/-- The stop-reason mapping in `PiAcpAgent.prompt`: ACP's `StopReason`
has no `error` member, so a session-level `error` is reported as
`end_turn` — or `cancelled` when `session.wasCancelRequested()` holds
at response time; other reasons pass through. -/
def acpPromptStopReason (result : StopReason) (wasCancelRequested : Bool) :
    StopReason :=
  if result = .error then
    (if wasCancelRequested then .cancelled else .endTurn)
  else result

/-! ### Trace observations -/

/-- The prompt commands in an effect trace, with their turn ids, in
order. -/
def sentPrompts (t : List Effect) : List (Nat × String) :=
  t.filterMap (fun e =>
    match e with
    | .sendPrompt i m => some (i, m)
    | _ => none)

/-- The ids of turns settled (resolved or rejected) in a trace, in
order. -/
def settledIds (t : List Effect) : List Nat :=
  t.filterMap (fun e =>
    match e with
    | .resolveTurn i _ => some i
    | .rejectTurn i => some i
    | _ => none)

/-- The stop reasons of turns resolved in a trace, with their ids. -/
def resolutions (t : List Effect) : List (Nat × StopReason) :=
  t.filterMap (fun e =>
    match e with
    | .resolveTurn i r => some (i, r)
    | _ => none)

/-- Net change to the number of in-flight (started, unsettled) turns
contributed by one effect. -/
def activeDelta (n : Nat) : Effect → Nat
  | .sendPrompt _ _ => n + 1
  | .resolveTurn _ _ => n - 1
  | .rejectTurn _ => n - 1
  | _ => n

/-- Starting from `n` in-flight turns, the number of in-flight turns
never exceeds one at any point of the trace.  (In the traces this is
applied to, every settled turn was previously started, so the counter
faithfully tracks the number of Active turns.) -/
def activeBounded : Nat → List Effect → Prop
  | n, [] => n ≤ 1
  | n, e :: t => n ≤ 1 ∧ activeBounded (activeDelta n e) t

/-- The running counter after a whole trace. -/
def activeAfter : Nat → List Effect → Nat
  | n, [] => n
  | n, e :: t => activeAfter (activeDelta n e) t

/-- An effect that carries no prompt command and no turn settlement
(pure notification traffic). -/
def isEmitEffect : Effect → Prop
  | .emit _ => True
  | .sendAbort => True
  | _ => False

/-- `(turnId, message)` pairs with consecutive ids starting at `n` —
the shape of the turn queue built by consecutive `prompt()` calls. -/
def enumFrom (n : Nat) : List String → List (Nat × String)
  | [] => []
  | m :: rest => (n, m) :: enumFrom (n + 1) rest

/-- Whether an effect is an emitted notification for tool-call `id`
carrying status `st`. -/
def emitsStatusFor (id : String) (st : AcpStatus) : Effect → Prop
  | .emit (.toolCall id' _ _ st') => id' = id ∧ st' = st
  | .emit (.toolCallUpdate id' st' _) => id' = id ∧ st' = st
  | _ => False

/-- Whether an op is a `tool_execution_end` event for tool-call
`id`. -/
def isToolExecEndFor (id : String) : Op → Prop
  | .piEvent (.toolExecEnd id' _ _ _) => id' = id
  | _ => False

/-- `[a, a+1, …, a+k-1]` — the ids of `k` consecutively created
turns. -/
def rangeFrom (a : Nat) : Nat → List Nat
  | 0 => []
  | k + 1 => a :: rangeFrom (a + 1) k

/-- The property asserted by the monotonic-status claim, as stated: in
a trace, no notification for `id` with status `pending` ever follows a
notification for `id` with status `in_progress`. -/
def noPendingAfterInProgress (id : String) (t : List Effect) : Prop :=
  ∀ i j ei ej, i < j → t.get? i = some ei → t.get? j = some ej →
    emitsStatusFor id .inProgress ei → ¬ emitsStatusFor id .pending ej

/-- A concrete session configuration for counterexamples and
witnesses: working directory `/w`, identity slash-command expansion. -/
def cfgWitness : SessCfg := { cwd := "/w", expand := fun m => m }

/-- Counterexample event sequence for the monotonic-status claim: a
tool call starts executing (recorded `in_progress`), finishes
(terminal `completed` removes the record), and then a late streamed
`toolcall_*` announcement for the same id arrives. -/
def statusReuseOps : List Op :=
  [ .piEvent (.toolExecStart "t1" "edit" none []),
    .piEvent (.toolExecEnd "t1" false "" []),
    .piEvent (.toolcallEvt "t1" "edit") ]

/-- A session holding one tool-call record, `t1`, at `in_progress`. -/
def inProgressState : SessionState :=
  { initSession with currentToolCalls := [("t1", PiToolStatus.inProgress)] }

/-- A session with active turn 0 and one queued turn 1 (allocator at
2) — the generic shape reached after two prompts. -/
def cancelWitnessState : SessionState :=
  { initSession with
    pendingTurn := some 0
    turnQueue := [(1, "b")]
    nextTurnId := 2 }

/-- Counterexample op sequence for the queue-advance clause: two
prompts are issued (one active, one queued), then the subprocess
prompt command for the active turn fails. -/
def failWithQueueOps : List Op :=
  [ .promptCall "a", .promptCall "b", .promptCmdFailed false ]

/-- Counterexample op sequence for the stop-reason claim: one prompt,
whose subprocess command fails without any cancellation. -/
def plainFailOps : List Op :=
  [ .promptCall "hello", .promptCmdFailed false ]

/-- Counterexample action sequence for the emission-chain claim: two
notifications are emitted; the first delivery is rejected by the
transport, after which the second is nevertheless dispatched. -/
def rejectedThenNextActs : List WAction :=
  [ .emitA (.agentMessageChunk "u1"),
    .emitA (.agentMessageChunk "u2"),
    .settleA .rejected,
    .settleA .accepted ]

/-- The claim's "dispatched only after the previous delivery was
accepted" as a predicate on a completed run: every dispatched
notification other than the first is preceded by an *accepted*
delivery of its predecessor. -/
def dispatchOnlyAfterAccepted (w : Wire) : Prop :=
  ∀ i u r, w.dispatched.get? (i + 1) = some (u, r) →
    ∃ u0, w.dispatched.get? i = some (u0, .accepted)

/-! ## Helper lemmas -/

theorem mapLookup_set_self {α : Type} (m : List (String × α)) (k : String) (v : α) :
    mapLookup (mapSet m k v) k = some v := by
  induction m with
  | nil => simp [mapSet, mapLookup]
  | cons p t ih =>
      by_cases h : p.1 = k
      · simp [mapSet, mapLookup, h]
      · simp [mapSet, mapLookup, h, ih]

theorem mapLookup_set_other {α : Type} (m : List (String × α)) (k k' : String) (v : α)
    (hne : k' ≠ k) : mapLookup (mapSet m k v) k' = mapLookup m k' := by
  induction m with
  | nil => simp [mapSet, mapLookup, Ne.symm hne]
  | cons p t ih =>
      by_cases h : p.1 = k
      · subst h
        simp [mapSet, mapLookup, Ne.symm hne]
      · by_cases h' : p.1 = k'
        · simp [mapSet, mapLookup, h, h', hne]
        · simp [mapSet, mapLookup, h, h', ih]

theorem mapLookup_erase_self {α : Type} (m : List (String × α)) (k : String) :
    mapLookup (mapErase m k) k = none := by
  induction m with
  | nil => simp [mapErase, mapLookup]
  | cons p t ih =>
      by_cases h : p.1 = k
      · simp [mapErase, h, ih]
      · simp [mapErase, mapLookup, h, ih]

theorem mapLookup_erase_other {α : Type} (m : List (String × α)) (k k' : String)
    (hne : k' ≠ k) : mapLookup (mapErase m k) k' = mapLookup m k' := by
  induction m with
  | nil => simp [mapErase]
  | cons p t ih =>
      by_cases h : p.1 = k
      · subst h
        simp [mapErase, mapLookup, Ne.symm hne, ih]
      · simp [mapErase, mapLookup, h, ih]

theorem sentPrompts_append (t1 t2 : List Effect) :
    sentPrompts (t1 ++ t2) = sentPrompts t1 ++ sentPrompts t2 :=
  List.filterMap_append ..

theorem settledIds_append (t1 t2 : List Effect) :
    settledIds (t1 ++ t2) = settledIds t1 ++ settledIds t2 :=
  List.filterMap_append ..

theorem resolutions_append (t1 t2 : List Effect) :
    resolutions (t1 ++ t2) = resolutions t1 ++ resolutions t2 :=
  List.filterMap_append ..

theorem activeAfter_append (n : Nat) (t1 t2 : List Effect) :
    activeAfter n (t1 ++ t2) = activeAfter (activeAfter n t1) t2 := by
  induction t1 generalizing n with
  | nil => rfl
  | cons e t ih => simp [activeAfter, ih]

theorem activeBounded_append (n : Nat) (t1 t2 : List Effect)
    (h1 : activeBounded n t1) (h2 : activeBounded (activeAfter n t1) t2) :
    activeBounded n (t1 ++ t2) := by
  induction t1 generalizing n with
  | nil =>
      cases t2 with
      | nil => exact h1
      | cons e t => exact ⟨h1, h2.2⟩
  | cons e t ih => exact ⟨h1.1, ih _ h1.2 h2⟩

theorem activeDelta_of_emit (n : Nat) (e : Effect) (h : isEmitEffect e) :
    activeDelta n e = n := by
  cases e <;> simp [isEmitEffect] at h ⊢ <;> rfl

theorem activeAfter_of_emits (n : Nat) (t : List Effect)
    (h : ∀ e ∈ t, isEmitEffect e) : activeAfter n t = n := by
  induction t generalizing n with
  | nil => rfl
  | cons e t ih =>
      rw [activeAfter, activeDelta_of_emit n e (h e (List.mem_cons_self _ _))]
      exact ih n (fun e' he' => h e' (List.mem_cons_of_mem _ he'))

theorem activeBounded_of_emits (n : Nat) (t : List Effect)
    (h : ∀ e ∈ t, isEmitEffect e) (hn : n ≤ 1) : activeBounded n t := by
  induction t generalizing n with
  | nil => exact hn
  | cons e t ih =>
      refine ⟨hn, ?_⟩
      rw [activeDelta_of_emit n e (h e (List.mem_cons_self _ _))]
      exact ih n (fun e' he' => h e' (List.mem_cons_of_mem _ he')) hn

theorem sentPrompts_of_emits (t : List Effect) (h : ∀ e ∈ t, isEmitEffect e) :
    sentPrompts t = [] := by
  rw [sentPrompts, List.filterMap_eq_nil_iff]
  intro e he
  have hx := h e he
  cases e <;> simp [isEmitEffect] at hx ⊢

theorem settledIds_of_emits (t : List Effect) (h : ∀ e ∈ t, isEmitEffect e) :
    settledIds t = [] := by
  rw [settledIds, List.filterMap_eq_nil_iff]
  intro e he
  have hx := h e he
  cases e <;> simp [isEmitEffect] at hx ⊢

theorem resolutions_of_emits (t : List Effect) (h : ∀ e ∈ t, isEmitEffect e) :
    resolutions t = [] := by
  rw [resolutions, List.filterMap_eq_nil_iff]
  intro e he
  have hx := h e he
  cases e <;> simp [isEmitEffect] at hx ⊢

theorem wrun_append (w : Wire) (l1 l2 : List WAction) :
    wrun w (l1 ++ l2) = wrun (wrun w l1) l2 := by
  induction l1 generalizing w with
  | nil => rfl
  | cons a l ih => simp [wrun, ih]

theorem emitsOf_append (l1 l2 : List WAction) :
    emitsOf (l1 ++ l2) = emitsOf l1 ++ emitsOf l2 := by
  induction l1 with
  | nil => rfl
  | cons a l ih => cases a <;> simp [emitsOf, ih]

theorem emitsOf_mono (p acts : List WAction) (h : p <+: acts) :
    emitsOf p <+: emitsOf acts := by
  obtain ⟨r, rfl⟩ := h
  rw [emitsOf_append]
  exact List.prefix_append _ _

theorem wire_order (w : Wire) (acts : List WAction) :
    (wrun w acts).dispatched.map Prod.fst ++ (wrun w acts).queued =
      w.dispatched.map Prod.fst ++ w.queued ++ emitsOf acts := by
  induction acts generalizing w with
  | nil => simp [wrun, emitsOf]
  | cons a l ih =>
      cases a with
      | emitA u =>
          rw [wrun, ih]
          simp [wstep, emitsOf]
      | settleA r =>
          rw [wrun, ih]
          cases hq : w.queued with
          | nil => simp [wstep, hq, emitsOf]
          | cons u rest => simp [wstep, hq, emitsOf]

theorem enumFrom_map_snd (n : Nat) (l : List String) :
    (enumFrom n l).map Prod.snd = l := by
  induction l generalizing n with
  | nil => rfl
  | cons m rest ih => simp [enumFrom, ih]

theorem enumFrom_map_fst (n : Nat) (l : List String) :
    (enumFrom n l).map Prod.fst = rangeFrom n l.length := by
  induction l generalizing n with
  | nil => rfl
  | cons m rest ih => simp [enumFrom, rangeFrom, ih]

/-! ## Claims -/

/-- **C8** — Pending-call resolution and rejection (`PiRpcProcess`,
`src/pi-rpc/process.ts`): a response line whose correlation id matches
a pending call resolves exactly that call with the response (removing
it from the pending map); at the call level a `success:true` response
delivers the response data while `success:false` throws, carrying the
failure detail (`res.error ?? JSON.stringify(res.data)`); and on child
exit every pending call is rejected with a process-exited error
exposing the exit code and signal. -/
theorem C8_pending_call_resolution (s : RpcState) (id : String) (r : PiRpcResponse)
    (code : Option Int) (sig : Option String) (cmdName : String)
    (hid : r.id = some id) (hpend : s.pending.contains id = true) :
    handleLine s (.parsed (.response r)) =
      ({ pending := s.pending.filter (fun x => ¬ x = id) }, [ .resolveCall id r ])
    ∧ (r.success = true → piCallResult cmdName r = .ok r.data)
    ∧ (r.success = false →
        piCallResult cmdName r = .error s!"pi {cmdName} failed: {failDetail r}")
    ∧ handleExit s code sig =
        ({ pending := [] }, s.pending.map (fun i => RpcOut.rejectExit i ⟨code, sig⟩)) := by
  refine ⟨?_, ?_, ?_, rfl⟩
  · have hmem : id ∈ s.pending := by simpa using hpend
    simp [handleLine, hid, hmem]
  · intro hs
    simp [piCallResult, hs]
  · intro hs
    simp [piCallResult, hs]

/-- **C8 witness** — a concrete channel with two pending calls `a`,
`b`: the response for `a` resolves it and leaves `b` pending; the exit
handler rejects both with the exit code and signal. -/
theorem C8_pending_call_resolution_witness :
    handleLine { pending := ["a", "b"] }
        (.parsed (.response { id := some "a", command := "get_state",
                              success := true, data := some "{}", error := none })) =
      ({ pending := ["b"] },
        [ .resolveCall "a" { id := some "a", command := "get_state",
                             success := true, data := some "{}", error := none } ])
    ∧ piCallResult "get_state"
        { id := some "a", command := "get_state", success := true,
          data := some "{}", error := none } = .ok (some "{}")
    ∧ handleExit { pending := ["a", "b"] } (some 1) none =
        ({ pending := [] },
          [ .rejectExit "a" ⟨some 1, none⟩, .rejectExit "b" ⟨some 1, none⟩ ]) := by
  have h := C8_pending_call_resolution { pending := ["a", "b"] } "a"
    { id := some "a", command := "get_state", success := true,
      data := some "{}", error := none } (some 1) none "get_state" rfl (by decide)
  refine ⟨?_, h.2.1 rfl, ?_⟩
  · rw [h.1]
    rfl
  · rw [h.2.2.2]
    rfl

/-- **C9** — Spawn-error classification (`SessionManager.create`,
`src/acp/session.ts`; `PiRpcProcess.spawn` modelled from the spec): a
spawn failure surfaces as `RequestError.internalError` carrying the
system error code, fatally for session creation, whereas an
application-level command failure of the handshake `get_state`
(a `success:false` response) is swallowed and creation succeeds — the
two are therefore distinguishable by the caller, and the spawn error is
distinct from any rethrown generic error. -/
theorem C9_spawn_error_classification (code msg e : String)
    (gs : Except String (Option String)) :
    sessionManagerCreate (.spawnError code msg) gs =
      .error (.internalError (some code) msg)
    ∧ sessionManagerCreate .ok (.error e) = .ok false
    ∧ ∀ m, CreateError.internalError (some code) msg ≠ CreateError.other m := by
  exact ⟨rfl, rfl, fun m h => by cases h⟩

/-- **C9 witness** — concrete `ENOENT` spawn failure vs a failed
handshake command. -/
theorem C9_spawn_error_classification_witness :
    sessionManagerCreate (.spawnError "ENOENT" "spawn pi ENOENT") (.ok none) =
      .error (.internalError (some "ENOENT") "spawn pi ENOENT")
    ∧ sessionManagerCreate .ok (.error "pi get_state failed: boom") = .ok false
    ∧ CreateError.internalError (some "ENOENT") "spawn pi ENOENT" ≠
        CreateError.other "pi get_state failed: boom" := by
  have h := C9_spawn_error_classification "ENOENT" "spawn pi ENOENT"
    "pi get_state failed: boom" (.ok none)
  exact ⟨h.1, h.2.1, h.2.2 _⟩


theorem wire_drain (w : Wire) (rs : List DeliveryResult)
    (hlen : rs.length = w.queued.length) :
    (wrun w (rs.map WAction.settleA)).queued = []
    ∧ (wrun w (rs.map WAction.settleA)).dispatched = w.dispatched ++ w.queued.zip rs := by
  induction rs generalizing w with
  | nil =>
      cases hq : w.queued with
      | nil => simp [wrun, hq]
      | cons u rest => rw [hq] at hlen; simp at hlen
  | cons r rs ih =>
      cases hq : w.queued with
      | nil => rw [hq] at hlen; simp at hlen
      | cons u rest =>
          rw [List.map_cons, wrun]
          have hstep : wstep w (.settleA r) =
              { queued := rest, dispatched := w.dispatched ++ [(u, r)] } := by
            simp [wstep, hq]
          rw [hstep]
          have hlen' : rs.length = rest.length := by
            rw [hq] at hlen; simpa using hlen
          have h2 := ih { queued := rest, dispatched := w.dispatched ++ [(u, r)] } hlen'
          refine ⟨h2.1, ?_⟩
          rw [h2.2]
          simp [List.zip_cons_cons]

/-- **C5 counterexample** — the claim as stated fails when the
transport rejects a delivery: with two emitted notifications, a
rejected first delivery and the chain's `.catch`, the second
notification is dispatched even though the first was never
*accepted*. -/
theorem C5_counterexample :
    ¬ dispatchOnlyAfterAccepted (wrun wireInit rejectedThenNextActs) := by
  intro h
  obtain ⟨u0, h0⟩ := h 0 (.agentMessageChunk "u2") .accepted rfl
  have hc : (wrun wireInit rejectedThenNextActs).dispatched.get? 0 =
      some (SessionUpdate.agentMessageChunk "u1", DeliveryResult.rejected) := rfl
  have h2 := hc.symm.trans h0
  simp at h2

/-- **C5 (amended)** — Ordered emission chain: at every point of any
interleaving of emissions and delivery settlements, the sequence of
dispatched notifications is a prefix of the generation order, and after
the full interleaving the dispatched notifications followed by the
still-chained ones equal the generation order exactly — so delivery
order always equals generation order, with notification N+1 dispatched
only once notification N's delivery has settled (accepted, or rejected
and swallowed by the chain's catch). -/
theorem C5_ordered_emission (acts p : List WAction) (hp : p <+: acts) :
    (wrun wireInit p).dispatched.map Prod.fst <+: emitsOf acts
    ∧ (wrun wireInit acts).dispatched.map Prod.fst ++ (wrun wireInit acts).queued
        = emitsOf acts := by
  constructor
  · have h1 := wire_order wireInit p
    simp only [wireInit, List.map_nil, List.nil_append] at h1
    have hpre : (wrun wireInit p).dispatched.map Prod.fst <+: emitsOf p := by
      rw [← h1]
      exact List.prefix_append _ _
    exact hpre.trans (emitsOf_mono p acts hp)
  · have h2 := wire_order wireInit acts
    simpa [wireInit] using h2

/-- **C5 witness** — the amended ordering theorem applied to the
concrete run with a rejected first delivery. -/
theorem C5_ordered_emission_witness :
    (wrun wireInit [ WAction.emitA (.agentMessageChunk "u1"),
                     .emitA (.agentMessageChunk "u2"),
                     .settleA .rejected ]).dispatched.map Prod.fst <+:
      emitsOf rejectedThenNextActs
    ∧ (wrun wireInit rejectedThenNextActs).dispatched.map Prod.fst ++
        (wrun wireInit rejectedThenNextActs).queued = emitsOf rejectedThenNextActs :=
  C5_ordered_emission rejectedThenNextActs
    [ .emitA (.agentMessageChunk "u1"), .emitA (.agentMessageChunk "u2"),
      .settleA .rejected ]
    ⟨[ .settleA .accepted ], rfl⟩

/-- **C10** — Delivery failures are swallowed: settling every chained
delivery — with *any* results, in particular rejections — drains the
chain (so `flushEmits` completes) and dispatches every queued
notification in order; and the `agent_end` continuation resolves the
pending prompt future regardless, since delivery outcomes are no input
to it.  A failed delivery therefore neither breaks the emission chain
nor blocks turn completion. -/
theorem C10_delivery_failures_swallowed (cfg : SessCfg) (w : Wire)
    (rs : List DeliveryResult) (s : SessionState) (tid : Nat)
    (hlen : rs.length = w.queued.length) (hp : s.pendingTurn = some tid) :
    (wrun w (rs.map WAction.settleA)).queued = []
    ∧ (wrun w (rs.map WAction.settleA)).dispatched = w.dispatched ++ w.queued.zip rs
    ∧ Effect.resolveTurn tid (if s.cancelRequested then .cancelled else .endTurn)
        ∈ (step cfg s (.piEvent .agentEnd)).2 := by
  have hd := wire_drain w rs hlen
  refine ⟨hd.1, hd.2, ?_⟩
  cases hq : s.turnQueue with
  | nil => simp [step, handlePiEvent, agentEndStep, hp, hq]
  | cons a l => simp [step, handlePiEvent, agentEndStep, hp, hq, startTurn]

/-- **C10 witness** — a chain of two notifications whose first delivery
is rejected: the chain drains, both are dispatched in order, and the
active turn still resolves on `agent_end`. -/
theorem C10_delivery_failures_swallowed_witness :
    (wrun { queued := [ SessionUpdate.agentMessageChunk "u1",
                        SessionUpdate.agentMessageChunk "u2" ], dispatched := [] }
        ([ DeliveryResult.rejected, DeliveryResult.accepted ].map WAction.settleA)).queued = []
    ∧ (wrun { queued := [ SessionUpdate.agentMessageChunk "u1",
                          SessionUpdate.agentMessageChunk "u2" ], dispatched := [] }
        ([ DeliveryResult.rejected, DeliveryResult.accepted ].map WAction.settleA)).dispatched =
        [ (SessionUpdate.agentMessageChunk "u1", DeliveryResult.rejected),
          (SessionUpdate.agentMessageChunk "u2", DeliveryResult.accepted) ]
    ∧ Effect.resolveTurn 0 .endTurn ∈
        (step cfgWitness { initSession with pendingTurn := some 0 }
          (.piEvent .agentEnd)).2 := by
  have h := C10_delivery_failures_swallowed cfgWitness
    { queued := [ SessionUpdate.agentMessageChunk "u1",
                  SessionUpdate.agentMessageChunk "u2" ], dispatched := [] }
    [ DeliveryResult.rejected, DeliveryResult.accepted ]
    { initSession with pendingTurn := some 0 } 0 rfl rfl
  exact ⟨h.1, by simpa using h.2.1, by simpa using h.2.2⟩


/-- **C6 counterexample** — the claim as stated fails at the external
boundary: a subprocess command failure without cancellation resolves
the session-level turn with `error`, but `PiAcpAgent.prompt` maps that
result to the external stop reason `end_turn`, not `Error` (ACP's
`StopReason` has no error member). -/
theorem C6_counterexample :
    resolutions (runOps cfgWitness initSession plainFailOps).2 = [(0, .error)]
    ∧ acpPromptStopReason .error false = .endTurn
    ∧ StopReason.endTurn ≠ .error := by
  refine ⟨rfl, rfl, by decide⟩

/-- **C6 (amended)** — Stop-reason mapping: the session-level
resolution is `cancelled` whenever the cancellation flag is set at
resolution time, both on normal completion (`agent_end`) and on
command failure; otherwise `agent_end` resolves `end_turn` and a
(non-auth-classified) command failure resolves `error`.  The external
ACP mapping in `PiAcpAgent.prompt` passes `end_turn` and `cancelled`
through, but reports a session-level `error` as `end_turn` — or
`cancelled` when cancellation was requested by response time — because
ACP's `StopReason` has no `Error` member. -/
theorem C6_stop_reason_mapping (cfg : SessCfg) (s : SessionState) (tid : Nat)
    (hp : s.pendingTurn = some tid) :
    Effect.resolveTurn tid (if s.cancelRequested then .cancelled else .endTurn)
      ∈ (step cfg s (.piEvent .agentEnd)).2
    ∧ (step cfg s (.promptCmdFailed false)).2 =
        [ .resolveTurn tid (if s.cancelRequested then .cancelled else .error),
          .emit (.sessionInfoUpdate s.turnQueue.length false) ]
    ∧ (∀ c, acpPromptStopReason .cancelled c = .cancelled)
    ∧ (∀ c, acpPromptStopReason .endTurn c = .endTurn)
    ∧ acpPromptStopReason .error true = .cancelled
    ∧ acpPromptStopReason .error false = .endTurn := by
  refine ⟨?_, ?_, fun c => rfl, fun c => rfl, rfl, rfl⟩
  · cases hq : s.turnQueue with
    | nil => simp [step, handlePiEvent, agentEndStep, hp, hq]
    | cons a l => simp [step, handlePiEvent, agentEndStep, hp, hq, startTurn]
  · simp [step, promptFailStep, hp]

/-- **C6 witness** — a session with an active turn and the flag unset:
`agent_end` resolves `end_turn`; a command failure resolves `error`,
which the external mapping reports as `end_turn` (or `cancelled` had
the flag been set). -/
theorem C6_stop_reason_mapping_witness :
    Effect.resolveTurn 0 .endTurn ∈
      (step cfgWitness { initSession with pendingTurn := some 0 }
        (.piEvent .agentEnd)).2
    ∧ (step cfgWitness { initSession with pendingTurn := some 0 }
        (.promptCmdFailed false)).2 =
        [ .resolveTurn 0 .error, .emit (.sessionInfoUpdate 0 false) ]
    ∧ acpPromptStopReason .error true = .cancelled
    ∧ acpPromptStopReason .error false = .endTurn := by
  have h := C6_stop_reason_mapping cfgWitness
    { initSession with pendingTurn := some 0 } 0 rfl
  exact ⟨by simpa using h.1, by simpa using h.2.1, h.2.2.2.2.1, h.2.2.2.2.2⟩

/-- **C7** — Diff synthesis: for a `tool_execution_end` with a
non-empty id, (i) when an edit snapshot exists, the outcome is not an
error, the re-read succeeds and the content changed, the completion
notification carries a diff block with the path, the snapshotted old
text and the re-read new text (plus the plain-text result when
non-empty); (ii) when the content is unchanged the notification carries
plain-text content only, with no diff block; (iii) likewise when no
snapshot exists; and (iv) the snapshot entry is removed at
`tool_execution_end` on every code path, whatever the outcome. -/
theorem C7_diff_synthesis (cfg : SessCfg) (s : SessionState)
    (id p oldText newText text : String) (fs : FileSys) (isErr : Bool)
    (hid : id ≠ "") :
    (mapLookup s.editSnapshots id = some (p, oldText) →
      readFile fs (resolveAbs cfg.cwd p) = some newText → newText ≠ oldText →
      (step cfg s (.piEvent (.toolExecEnd id false text fs))).2 =
        [ .emit (.toolCallUpdate id .completed (some
            ([ .diff p oldText newText ] ++
              (if text ≠ "" then [ .contentText text ] else [])))) ])
    ∧ (mapLookup s.editSnapshots id = some (p, oldText) →
        readFile fs (resolveAbs cfg.cwd p) = some oldText →
        (step cfg s (.piEvent (.toolExecEnd id false text fs))).2 =
          [ .emit (.toolCallUpdate id .completed
              (if text ≠ "" then some [ .contentText text ] else none)) ])
    ∧ (mapLookup s.editSnapshots id = none →
        (step cfg s (.piEvent (.toolExecEnd id isErr text fs))).2 =
          [ .emit (.toolCallUpdate id (if isErr then .failed else .completed)
              (if text ≠ "" then some [ .contentText text ] else none)) ])
    ∧ mapLookup
        (step cfg s (.piEvent (.toolExecEnd id isErr text fs))).1.editSnapshots
        id = none := by
  refine ⟨?_, ?_, ?_, ?_⟩
  · intro hsnap hread hne
    simp [step, handlePiEvent, toolExecEndStep, toolEndContent, hid, hsnap, hread, hne]
  · intro hsnap hread
    simp [step, handlePiEvent, toolExecEndStep, toolEndContent, hid, hsnap, hread]
  · intro hsnap
    cases isErr <;>
      simp [step, handlePiEvent, toolExecEndStep, toolEndContent, hid, hsnap]
  · simp [step, handlePiEvent, toolExecEndStep, hid, mapLookup_erase_self]

/-- **C7 witness** — the spec's scenario: snapshot `"before"` (with
newline) for `a.txt`, file now reads `"after"`: the completion
notification is a diff block plus the tool text, and the snapshot entry
is gone. -/
theorem C7_diff_synthesis_witness :
    (step cfgWitness
        { initSession with editSnapshots := [("t1", ("a.txt", "before\n"))] }
        (.piEvent (.toolExecEnd "t1" false "ok" [("/w/a.txt", "after\n")]))).2 =
      [ .emit (.toolCallUpdate "t1" .completed (some
          [ .diff "a.txt" "before\n" "after\n", .contentText "ok" ])) ]
    ∧ mapLookup
        (step cfgWitness
          { initSession with editSnapshots := [("t1", ("a.txt", "before\n"))] }
          (.piEvent (.toolExecEnd "t1" false "ok"
            [("/w/a.txt", "after\n")]))).1.editSnapshots "t1" = none := by
  have h := C7_diff_synthesis cfgWitness
    { initSession with editSnapshots := [("t1", ("a.txt", "before\n"))] }
    "t1" "a.txt" "before\n" "after\n" "ok" [("/w/a.txt", "after\n")] false
    (by decide)
  refine ⟨?_, h.2.2.2⟩
  have h1 := h.1 rfl (by decide) (by decide)
  exact h1.trans (by decide)


/-- A step outcome that leaves the turn queue and the turn-id
allocator untouched and forwards no prompt command (all the event
translation and bookkeeping steps are of this kind). -/
def preservesTurnData (s : SessionState) (r : SessionState × List Effect) : Prop :=
  r.1.turnQueue = s.turnQueue ∧ r.1.nextTurnId = s.nextTurnId ∧ sentPrompts r.2 = []

theorem sources_of_preserves (s : SessionState) (r : SessionState × List Effect)
    (h : preservesTurnData s r) :
    (∀ q ∈ sentPrompts r.2, q.1 ∈ s.turnQueue.map Prod.fst ∨ s.nextTurnId ≤ q.1)
    ∧ (∀ q ∈ r.1.turnQueue, q.1 ∈ s.turnQueue.map Prod.fst ∨ s.nextTurnId ≤ q.1)
    ∧ s.nextTurnId ≤ r.1.nextTurnId := by
  refine ⟨?_, ?_, ?_⟩
  · intro q hq
    rw [h.2.2] at hq
    simp at hq
  · intro q hq
    rw [h.1] at hq
    exact Or.inl (List.mem_map_of_mem _ hq)
  · rw [h.2.1]

theorem toolcallEvtStep_preserves (id name : String) (s : SessionState) :
    preservesTurnData s (toolcallEvtStep id name s) := by
  unfold toolcallEvtStep
  by_cases hid : id = ""
  · simp [hid, preservesTurnData, sentPrompts]
  · cases hlk : mapLookup s.currentToolCalls id <;>
      simp [hid, hlk, preservesTurnData, sentPrompts]

theorem toolExecStartStep_preserves (cfg : SessCfg) (id name : String)
    (ap : Option String) (fs : FileSys) (s : SessionState) :
    preservesTurnData s (toolExecStartStep cfg id name ap fs s) := by
  cases ap with
  | none =>
      cases hlk : mapLookup s.currentToolCalls id <;>
        by_cases he : name = "edit" <;>
          simp [toolExecStartStep, he, hlk, preservesTurnData, sentPrompts]
  | some p =>
      cases hr : readFile fs (resolveAbs cfg.cwd p) <;>
        cases hlk : mapLookup s.currentToolCalls id <;>
          by_cases he : name = "edit" <;>
            simp [toolExecStartStep, he, hlk, hr, preservesTurnData, sentPrompts]

theorem toolExecUpdateStep_preserves (id text : String) (s : SessionState) :
    preservesTurnData s (toolExecUpdateStep id text s) := by
  unfold toolExecUpdateStep
  split <;> simp [preservesTurnData, sentPrompts]

theorem toolExecEndStep_preserves (cfg : SessCfg) (id : String) (isErr : Bool)
    (text : String) (fs : FileSys) (s : SessionState) :
    preservesTurnData s (toolExecEndStep cfg id isErr text fs s) := by
  unfold toolExecEndStep
  split <;> simp [preservesTurnData, sentPrompts]

theorem promptFailStep_preserves (b : Bool) (s : SessionState) :
    preservesTurnData s (promptFailStep b s) := by
  unfold promptFailStep
  cases hp : s.pendingTurn <;> cases b <;>
    simp [preservesTurnData, sentPrompts, List.filterMap_cons]

theorem promptEnqueue_sources (cfg : SessCfg) (m : String) (s0 : SessionState) :
    (∀ q ∈ sentPrompts (promptEnqueue cfg m s0).2,
        q.1 ∈ s0.turnQueue.map Prod.fst ∨ s0.nextTurnId ≤ q.1)
    ∧ (∀ q ∈ (promptEnqueue cfg m s0).1.turnQueue,
        q.1 ∈ s0.turnQueue.map Prod.fst ∨ s0.nextTurnId ≤ q.1)
    ∧ s0.nextTurnId ≤ (promptEnqueue cfg m s0).1.nextTurnId := by
  cases hp : s0.pendingTurn with
  | some a =>
      refine ⟨?_, ?_, ?_⟩
      · intro q hq
        simp [promptEnqueue, hp, sentPrompts] at hq
      · intro q hq
        simp [promptEnqueue, hp] at hq
        rcases hq with hq | hq
        · exact Or.inl (List.mem_map_of_mem _ hq)
        · exact Or.inr (by simp [hq])
      · simp [promptEnqueue, hp]
  | none =>
      refine ⟨?_, ?_, ?_⟩
      · intro q hq
        simp [promptEnqueue, hp, startTurn, sentPrompts] at hq
        exact Or.inr (by simp [hq])
      · intro q hq
        simp [promptEnqueue, hp, startTurn] at hq
        exact Or.inl (List.mem_map_of_mem _ hq)
      · simp [promptEnqueue, hp, startTurn]

/-- Any step forwards prompt commands only for turns that were already
queued or are freshly allocated (id at or above the allocator), keeps
that property for the resulting queue, and never decreases the
allocator. -/
theorem step_sends_sources (cfg : SessCfg) (s : SessionState) (op : Op) :
    (∀ q ∈ sentPrompts (step cfg s op).2,
        q.1 ∈ s.turnQueue.map Prod.fst ∨ s.nextTurnId ≤ q.1)
    ∧ (∀ q ∈ (step cfg s op).1.turnQueue,
        q.1 ∈ s.turnQueue.map Prod.fst ∨ s.nextTurnId ≤ q.1)
    ∧ s.nextTurnId ≤ (step cfg s op).1.nextTurnId := by
  cases op with
  | promptCall m =>
      simp only [step, promptStep]
      split
      · have h := promptEnqueue_sources cfg m { s with startupInfoSent := true }
        refine ⟨?_, ?_, ?_⟩
        · intro q hq
          have hq2 : q ∈ sentPrompts (promptEnqueue cfg m
              { s with startupInfoSent := true }).2 := by
            simpa [sentPrompts, List.filterMap_cons] using hq
          simpa using h.1 q hq2
        · intro q hq
          simpa using h.2.1 q hq
        · simpa using h.2.2
      · exact promptEnqueue_sources cfg m s
  | cancelCall =>
      by_cases hq0 : s.turnQueue.length ≠ 0
      · refine ⟨?_, ?_, ?_⟩
        · intro q hq
          simp [step, cancelStep, hq0, sentPrompts, List.mem_filterMap] at hq
        · intro q hq
          simp [step, cancelStep, hq0] at hq
        · simp [step, cancelStep, hq0]
      · refine ⟨?_, ?_, ?_⟩
        · intro q hq
          simp [step, cancelStep, hq0, sentPrompts, List.mem_filterMap] at hq
        · intro q hq
          simp [step, cancelStep, hq0] at hq
          exact Or.inl (List.mem_map_of_mem _ hq)
        · simp [step, cancelStep, hq0]
  | promptCmdFailed b =>
      exact sources_of_preserves s _ (promptFailStep_preserves b s)
  | piEvent ev =>
      cases ev with
      | textDelta d =>
          refine sources_of_preserves s _ ?_
          simp [step, handlePiEvent, preservesTurnData, sentPrompts]
      | thinkingDelta d =>
          refine sources_of_preserves s _ ?_
          simp [step, handlePiEvent, preservesTurnData, sentPrompts]
      | toolcallEvt id name =>
          exact sources_of_preserves s _ (toolcallEvtStep_preserves id name s)
      | toolExecStart id name ap fs =>
          exact sources_of_preserves s _ (toolExecStartStep_preserves cfg id name ap fs s)
      | toolExecUpdate id text =>
          exact sources_of_preserves s _ (toolExecUpdateStep_preserves id text s)
      | toolExecEnd id isErr text fs =>
          exact sources_of_preserves s _ (toolExecEndStep_preserves cfg id isErr text fs s)
      | agentStart =>
          refine sources_of_preserves s _ ?_
          simp [step, handlePiEvent, preservesTurnData, sentPrompts]
      | turnEnd =>
          refine sources_of_preserves s _ ?_
          simp [step, handlePiEvent, preservesTurnData, sentPrompts]
      | agentEnd =>
          simp only [step, handlePiEvent, agentEndStep]
          cases hp : s.pendingTurn <;>
            cases hq : s.turnQueue with
            | nil =>
                refine ⟨?_, ?_, ?_⟩ <;>
                  simp [hq, sentPrompts, List.mem_filterMap]
            | cons a l =>
                refine ⟨?_, ?_, ?_⟩
                · intro q hqm
                  simp [hq, sentPrompts, startTurn, List.mem_filterMap] at hqm
                  subst hqm
                  exact Or.inl (by simp [hq])
                · intro q hqm
                  simp [hq, startTurn] at hqm
                  refine Or.inl ?_
                  simp [hq]
                  exact Or.inr ⟨q.2, hqm⟩
                · simp [hq, startTurn]
      | unknownEvt =>
          refine sources_of_preserves s _ ?_
          simp [step, handlePiEvent, preservesTurnData, sentPrompts]


theorem runOps_sends_sources (cfg : SessCfg) (s : SessionState) (ops : List Op) :
    ∀ q ∈ sentPrompts (runOps cfg s ops).2,
      q.1 ∈ s.turnQueue.map Prod.fst ∨ s.nextTurnId ≤ q.1 := by
  induction ops generalizing s with
  | nil =>
      intro q hq
      simp [runOps, sentPrompts] at hq
  | cons op ops ih =>
      intro q hq
      have hq2 : q ∈ sentPrompts ((step cfg s op).2 ++
          (runOps cfg (step cfg s op).1 ops).2) := by
        simpa [runOps] using hq
      rw [sentPrompts_append] at hq2
      rcases List.mem_append.mp hq2 with h1 | h2
      · exact (step_sends_sources cfg s op).1 q h1
      · have h3 := ih (step cfg s op).1 q h2
        have hstep := step_sends_sources cfg s op
        rcases h3 with hqin | hge
        · rcases List.mem_map.mp hqin with ⟨t, ht, hteq⟩
          rcases hstep.2.1 t ht with h | h
          · exact Or.inl (hteq ▸ h)
          · exact Or.inr (hteq ▸ h)
        · exact Or.inr (le_trans hstep.2.2 hge)

/-- **C2** — Cancellation drains the queue without forwarding: with M
turns queued, `cancel()` synchronously resolves all M queued futures
with `cancelled` in queue order, forwards no prompt command for them,
empties the queue while leaving the active turn in place, and issues
the abort command only after the resolutions; moreover no later
callback sequence ever forwards a prompt command for any of those M
turns (later forwards come from the now-empty queue or from fresh turn
ids). -/
theorem C2_cancel_drains_queue (cfg : SessCfg) (s : SessionState) (ops : List Op)
    (hM : s.turnQueue ≠ [])
    (hfresh : ∀ q ∈ s.turnQueue, q.1 < s.nextTurnId) :
    (cancelStep s).2 =
      (s.turnQueue.map (fun t => Effect.resolveTurn t.1 .cancelled)) ++
        [ .emit (.agentMessageChunk "Cleared queued prompts."),
          .emit (.sessionInfoUpdate 0 s.pendingTurn.isSome),
          .sendAbort ]
    ∧ (cancelStep s).1.turnQueue = []
    ∧ (cancelStep s).1.pendingTurn = s.pendingTurn
    ∧ sentPrompts (cancelStep s).2 = []
    ∧ ∀ q ∈ sentPrompts (runOps cfg (cancelStep s).1 ops).2,
        q.1 ∉ s.turnQueue.map Prod.fst := by
  have hlen : s.turnQueue.length ≠ 0 := by
    intro h
    exact hM (List.length_eq_zero.mp h)
  refine ⟨?_, ?_, ?_, ?_, ?_⟩
  · simp [cancelStep, hlen]
  · simp [cancelStep, hlen]
  · simp [cancelStep, hlen]
  · rw [sentPrompts, List.filterMap_eq_nil_iff]
    intro e he
    simp [cancelStep, hlen] at he
    rcases he with ⟨t, ht, rfl⟩ | rfl | rfl | rfl <;> rfl
  · intro q hq hmem
    have h2 := runOps_sends_sources cfg (cancelStep s).1 ops q hq
    rcases h2 with hin | hge
    · rw [show (cancelStep s).1.turnQueue = [] by simp [cancelStep, hlen]] at hin
      simp at hin
    · have hnext : (cancelStep s).1.nextTurnId = s.nextTurnId := by
        simp [cancelStep, hlen]
      rw [hnext] at hge
      rcases List.mem_map.mp hmem with ⟨t, ht, hteq⟩
      have hlt := hfresh t ht
      omega

/-- **C2 witness** — a session with an active turn 0 and one queued
turn 1: `cancel()` resolves turn 1 `cancelled` before the abort, sends
nothing for it, and an `agent_end` followed by a new prompt still never
forwards turn 1 (only the fresh turn 2). -/
theorem C2_cancel_drains_queue_witness :
    (cancelStep cancelWitnessState).2 =
      (cancelWitnessState.turnQueue.map (fun t => Effect.resolveTurn t.1 .cancelled)) ++
        [ .emit (.agentMessageChunk "Cleared queued prompts."),
          .emit (.sessionInfoUpdate 0 cancelWitnessState.pendingTurn.isSome),
          .sendAbort ]
    ∧ (cancelStep cancelWitnessState).1.turnQueue = []
    ∧ (cancelStep cancelWitnessState).1.pendingTurn = cancelWitnessState.pendingTurn
    ∧ sentPrompts (cancelStep cancelWitnessState).2 = []
    ∧ ∀ q ∈ sentPrompts (runOps cfgWitness (cancelStep cancelWitnessState).1
        [ .piEvent .agentEnd, .promptCall "c" ]).2,
        q.1 ∉ cancelWitnessState.turnQueue.map Prod.fst :=
  C2_cancel_drains_queue cfgWitness cancelWitnessState
    [ .piEvent .agentEnd, .promptCall "c" ] (by decide) (by decide)

/-- Every effect of handling a subprocess event other than
`agent_end` is pure notification traffic: no prompt command, no turn
settlement. -/
theorem event_effects_emits (cfg : SessCfg) (ev : PiEvent) (s : SessionState)
    (hne : ev ≠ .agentEnd) :
    ∀ e ∈ (handlePiEvent cfg ev s).2, isEmitEffect e := by
  intro e he
  cases ev with
  | textDelta d =>
      simp [handlePiEvent] at he
      rw [he]
      trivial
  | thinkingDelta d =>
      simp [handlePiEvent] at he
      rw [he]
      trivial
  | toolcallEvt id name =>
      by_cases hid : id = ""
      · simp [handlePiEvent, toolcallEvtStep, hid] at he
      · cases hlk : mapLookup s.currentToolCalls id <;>
          simp [handlePiEvent, toolcallEvtStep, hid, hlk] at he <;>
            simp [he, isEmitEffect]
  | toolExecStart id name ap fs =>
      cases ap with
      | none =>
          cases hlk : mapLookup s.currentToolCalls id <;>
            by_cases hedit : name = "edit" <;>
              simp [handlePiEvent, toolExecStartStep, hlk, hedit] at he <;>
                simp [he, isEmitEffect]
      | some p =>
          cases hr : readFile fs (resolveAbs cfg.cwd p) <;>
            cases hlk : mapLookup s.currentToolCalls id <;>
              by_cases hedit : name = "edit" <;>
                simp [handlePiEvent, toolExecStartStep, hlk, hedit, hr] at he <;>
                  simp [he, isEmitEffect]
  | toolExecUpdate id text =>
      by_cases hid : id = ""
      · simp [handlePiEvent, toolExecUpdateStep, hid] at he
      · simp [handlePiEvent, toolExecUpdateStep, hid] at he
        rw [he]
        trivial
  | toolExecEnd id isErr text fs =>
      by_cases hid : id = ""
      · simp [handlePiEvent, toolExecEndStep, hid] at he
      · simp [handlePiEvent, toolExecEndStep, hid] at he
        rw [he]
        trivial
  | agentStart => simp [handlePiEvent] at he
  | turnEnd => simp [handlePiEvent] at he
  | agentEnd => exact absurd rfl hne
  | unknownEvt => simp [handlePiEvent] at he

/-- Resolving a list of queued turns settles exactly their ids, in
order. -/
theorem settledIds_map_resolve (l : List (Nat × String)) (rsn : StopReason) :
    settledIds (l.map (fun t => Effect.resolveTurn t.1 rsn)) = l.map Prod.fst := by
  induction l with
  | nil => rfl
  | cons a l ih =>
      simp only [List.map_cons, settledIds, List.filterMap_cons]
      simpa [settledIds] using ih

/-- **C4** — Turn completion trigger: `turn_end` events are complete
no-ops (any number of them leave the session state unchanged and
produce no effects, in particular they never resolve the pending
prompt future), and the only callbacks that can settle the active
turn's future are the distinguished `agent_end` event and the failure
continuation of the subprocess prompt command. -/
theorem C4_turn_completion_trigger (cfg : SessCfg) (s : SessionState) (tid : Nat)
    (hp : s.pendingTurn = some tid) (hq : tid ∉ s.turnQueue.map Prod.fst) :
    (∀ n, runOps cfg s (List.replicate n (.piEvent .turnEnd)) = (s, []))
    ∧ ∀ op r,
        (Effect.resolveTurn tid r ∈ (step cfg s op).2 ∨
          Effect.rejectTurn tid ∈ (step cfg s op).2) →
        op = .piEvent .agentEnd ∨ ∃ b, op = .promptCmdFailed b := by
  constructor
  · intro n
    induction n with
    | zero => rfl
    | succ k ih => simp [List.replicate_succ, runOps, step, handlePiEvent, ih]
  · intro op r hmem
    cases op with
    | promptCall m =>
        exfalso
        rcases hmem with hmem | hmem <;>
        · revert hmem
          simp only [step, promptStep]
          split <;> simp [promptEnqueue, hp]
    | cancelCall =>
        exfalso
        have hset : tid ∈ settledIds (step cfg s .cancelCall).2 := by
          rcases hmem with hmem | hmem
          · exact List.mem_filterMap.mpr ⟨_, hmem, rfl⟩
          · exact List.mem_filterMap.mpr ⟨_, hmem, rfl⟩
        by_cases hlen : s.turnQueue.length ≠ 0
        · have h1 : (step cfg s .cancelCall).2 =
              (s.turnQueue.map (fun t => Effect.resolveTurn t.1 .cancelled)) ++
                [ .emit (.agentMessageChunk "Cleared queued prompts."),
                  .emit (.sessionInfoUpdate 0 s.pendingTurn.isSome),
                  .sendAbort ] := by
            simp [step, cancelStep, hlen]
          have hids : settledIds (step cfg s .cancelCall).2 = s.turnQueue.map Prod.fst := by
            rw [h1, settledIds_append, settledIds_map_resolve]
            simp [settledIds, List.filterMap_cons]
          rw [hids] at hset
          exact hq hset
        · have hids : settledIds (step cfg s .cancelCall).2 = [] := by
            simp [step, cancelStep, hlen, settledIds, List.filterMap_cons]
          rw [hids] at hset
          simp at hset
    | promptCmdFailed b =>
        exact Or.inr ⟨b, rfl⟩
    | piEvent ev =>
        cases hev : ev with
        | agentEnd => exact Or.inl rfl
        | _ =>
            exfalso
            have hall := event_effects_emits cfg ev s (by rw [hev]; intro hcon; cases hcon)
            rcases hmem with hmem | hmem <;>
            · have he := hall _ (show _ ∈ (handlePiEvent cfg ev s).2 from hmem)
              simp [isEmitEffect] at he


/-- **C4 witness** — the concrete session with active turn 0 and
queued turn 1: any number of `turn_end` events is a no-op, and only
`agent_end` or a prompt-command failure can settle turn 0. -/
theorem C4_turn_completion_trigger_witness :
    (∀ n, runOps cfgWitness cancelWitnessState
        (List.replicate n (.piEvent .turnEnd)) = (cancelWitnessState, []))
    ∧ ∀ op r,
        (Effect.resolveTurn 0 r ∈ (step cfgWitness cancelWitnessState op).2 ∨
          Effect.rejectTurn 0 ∈ (step cfgWitness cancelWitnessState op).2) →
        op = .piEvent .agentEnd ∨ ∃ b, op = .promptCmdFailed b :=
  C4_turn_completion_trigger cfgWitness cancelWitnessState 0 rfl (by decide)


/-- While a tool-call record is `in_progress`, any single callback
other than its own `tool_execution_end` emits no `pending`-status
notification for that id and leaves its record at `in_progress`. -/
theorem step_keeps_inProgress (cfg : SessCfg) (s : SessionState) (id : String)
    (op : Op) (hid : id ≠ "")
    (hrec : mapLookup s.currentToolCalls id = some .inProgress)
    (hnoend : ¬ isToolExecEndFor id op) :
    (∀ e ∈ (step cfg s op).2, ¬ emitsStatusFor id .pending e)
    ∧ mapLookup (step cfg s op).1.currentToolCalls id = some .inProgress := by
  cases op with
  | promptCall m =>
      constructor
      · simp only [step, promptStep]
        split <;> cases hp : s.pendingTurn <;>
          simp [promptEnqueue, startTurn, hp, emitsStatusFor]
      · simp only [step, promptStep]
        split <;> cases hp : s.pendingTurn <;>
          simp [promptEnqueue, startTurn, hp, hrec]
  | cancelCall =>
      constructor
      · intro e he
        by_cases hlen : s.turnQueue.length ≠ 0
        · simp [step, cancelStep, hlen] at he
          rcases he with ⟨a, ha, rfl⟩ | rfl | rfl | rfl <;> simp [emitsStatusFor]
        · simp [step, cancelStep, hlen] at he
          subst he
          simp [emitsStatusFor]
      · by_cases hlen : s.turnQueue.length ≠ 0 <;>
          simp [step, cancelStep, hlen, hrec]
  | promptCmdFailed b =>
      constructor
      · cases hp : s.pendingTurn <;> cases b <;>
          simp [step, promptFailStep, hp, emitsStatusFor]
      · cases hp : s.pendingTurn <;> cases b <;>
          simp [step, promptFailStep, hp, hrec]
  | piEvent ev =>
      cases ev with
      | textDelta d =>
          exact ⟨by simp [step, handlePiEvent, emitsStatusFor], by
            simpa [step, handlePiEvent] using hrec⟩
      | thinkingDelta d =>
          exact ⟨by simp [step, handlePiEvent, emitsStatusFor], by
            simpa [step, handlePiEvent] using hrec⟩
      | agentStart =>
          exact ⟨by simp [step, handlePiEvent], by
            simpa [step, handlePiEvent] using hrec⟩
      | turnEnd =>
          exact ⟨by simp [step, handlePiEvent], by
            simpa [step, handlePiEvent] using hrec⟩
      | unknownEvt =>
          exact ⟨by simp [step, handlePiEvent], by
            simpa [step, handlePiEvent] using hrec⟩
      | agentEnd =>
          constructor
          · cases hp : s.pendingTurn <;> cases hq : s.turnQueue <;>
              simp [step, handlePiEvent, agentEndStep, startTurn, hp, hq,
                emitsStatusFor]
          · cases hp : s.pendingTurn <;> cases hq : s.turnQueue <;>
              simp [step, handlePiEvent, agentEndStep, startTurn, hp, hq, hrec]
      | toolcallEvt tcid name =>
          by_cases heq : tcid = id
          · subst heq
            constructor
            · simp [step, handlePiEvent, toolcallEvtStep, hid, hrec, acpOfPi,
                emitsStatusFor]
            · simp [step, handlePiEvent, toolcallEvtStep, hid, hrec]
          · constructor
            · by_cases hid2 : tcid = ""
              · simp [step, handlePiEvent, toolcallEvtStep, hid2]
              · cases hlk : mapLookup s.currentToolCalls tcid <;>
                  simp [step, handlePiEvent, toolcallEvtStep, hid2, hlk, acpOfPi,
                    emitsStatusFor, heq]
            · by_cases hid2 : tcid = ""
              · simpa [step, handlePiEvent, toolcallEvtStep, hid2] using hrec
              · cases hlk : mapLookup s.currentToolCalls tcid <;>
                  simp [step, handlePiEvent, toolcallEvtStep, hid2, hlk,
                    mapLookup_set_other _ _ _ _ (fun h => heq h.symm), hrec]
      | toolExecStart tcid name ap fs =>
          have hmap : ∀ v, mapLookup (mapSet s.currentToolCalls tcid v) id =
              some .inProgress ∨ (tcid = id ∧ v = PiToolStatus.inProgress →
                mapLookup (mapSet s.currentToolCalls tcid v) id = some .inProgress) := by
            intro v
            exact Or.inr (fun hv => hv.1 ▸ hv.2 ▸ mapLookup_set_self _ _ _)
          constructor
          · cases ap with
            | none =>
                cases hlk : mapLookup s.currentToolCalls tcid <;>
                  by_cases hedit : name = "edit" <;>
                    simp [step, handlePiEvent, toolExecStartStep, hlk, hedit,
                      emitsStatusFor]
            | some p =>
                cases hr : readFile fs (resolveAbs cfg.cwd p) <;>
                  cases hlk : mapLookup s.currentToolCalls tcid <;>
                    by_cases hedit : name = "edit" <;>
                      simp [step, handlePiEvent, toolExecStartStep, hlk, hedit, hr,
                        emitsStatusFor]
          · have hset : mapLookup (mapSet s.currentToolCalls tcid .inProgress) id =
                some PiToolStatus.inProgress := by
              by_cases heq : tcid = id
              · subst heq
                exact mapLookup_set_self _ _ _
              · rw [mapLookup_set_other _ _ _ _ (fun h => heq h.symm)]
                exact hrec
            cases ap with
            | none =>
                cases hlk : mapLookup s.currentToolCalls tcid <;>
                  by_cases hedit : name = "edit" <;>
                    simp [step, handlePiEvent, toolExecStartStep, hlk, hedit, hset]
            | some p =>
                cases hr : readFile fs (resolveAbs cfg.cwd p) <;>
                  cases hlk : mapLookup s.currentToolCalls tcid <;>
                    by_cases hedit : name = "edit" <;>
                      simp [step, handlePiEvent, toolExecStartStep, hlk, hedit, hr,
                        hset]
      | toolExecUpdate tcid text =>
          constructor
          · by_cases hid2 : tcid = "" <;>
              simp [step, handlePiEvent, toolExecUpdateStep, hid2, emitsStatusFor]
          · by_cases hid2 : tcid = "" <;>
              simpa [step, handlePiEvent, toolExecUpdateStep, hid2] using hrec
      | toolExecEnd tcid isErr text fs =>
          have hneq : tcid ≠ id := by
            intro h
            exact hnoend (by simp [isToolExecEndFor, h])
          constructor
          · by_cases hid2 : tcid = "" <;>
              simp [step, handlePiEvent, toolExecEndStep, hid2, emitsStatusFor, hneq]
          · by_cases hid2 : tcid = ""
            · simpa [step, handlePiEvent, toolExecEndStep, hid2] using hrec
            · simp [step, handlePiEvent, toolExecEndStep, hid2,
                mapLookup_erase_other _ _ _ (fun h => hneq h.symm), hrec]


/-- **C3 counterexample** — the claim as stated fails when a tool-call
id recurs after its record was removed by a terminal status: executing
`t1` records `in_progress`, its `tool_execution_end` emits `completed`
and removes the record, and a late streamed `toolcall_*` announcement
for the same id is then emitted with status `pending` — a `pending`
notification after an `in_progress` one for the same id. -/
theorem C3_counterexample :
    ¬ noPendingAfterInProgress "t1" (runOps cfgWitness initSession statusReuseOps).2 := by
  intro h
  exact h 0 2 _ _ (by decide) rfl rfl
    (by simp [emitsStatusFor]) (by simp [emitsStatusFor])

/-- **C3 (amended)** — Monotonic tool-call status while the record
lives: once `in_progress` is recorded for an id, no notification for
that id carries `pending` across any callback sequence that does not
contain the id's own `tool_execution_end`, and the record stays at
`in_progress`; a second streamed announcement for the id updates the
existing record in place (a `tool_call_update` with the existing
status, no new record, no downgrade); and a terminal
`tool_execution_end` (`completed` or `failed`) removes the record —
after which a fresh announcement may legitimately restart the id at
`pending`. -/
theorem C3_monotonic_status (cfg : SessCfg) (s : SessionState) (id : String)
    (ops : List Op) (hid : id ≠ "")
    (hrec : mapLookup s.currentToolCalls id = some .inProgress)
    (hnoend : ∀ op ∈ ops, ¬ isToolExecEndFor id op) :
    (∀ e ∈ (runOps cfg s ops).2, ¬ emitsStatusFor id .pending e)
    ∧ mapLookup (runOps cfg s ops).1.currentToolCalls id = some .inProgress
    ∧ (∀ name, step cfg s (.piEvent (.toolcallEvt id name)) =
        (s, [ .emit (.toolCallUpdate id .inProgress none) ]))
    ∧ ∀ isErr text fs,
        mapLookup (step cfg s
          (.piEvent (.toolExecEnd id isErr text fs))).1.currentToolCalls id =
          none := by
  have main : ∀ ops0 : List Op, ∀ s0 : SessionState,
      mapLookup s0.currentToolCalls id = some .inProgress →
      (∀ op ∈ ops0, ¬ isToolExecEndFor id op) →
      (∀ e ∈ (runOps cfg s0 ops0).2, ¬ emitsStatusFor id .pending e) ∧
        mapLookup (runOps cfg s0 ops0).1.currentToolCalls id = some .inProgress := by
    intro ops0
    induction ops0 with
    | nil =>
        intro s0 h0 _
        exact ⟨by simp [runOps], by simpa [runOps] using h0⟩
    | cons op ops2 ih =>
        intro s0 h0 hno
        have hstep := step_keeps_inProgress cfg s0 id op hid h0
          (hno op (List.mem_cons_self _ _))
        have hrest := ih (step cfg s0 op).1 hstep.2
          (fun o ho => hno o (List.mem_cons_of_mem _ ho))
        constructor
        · intro e he
          have he2 : e ∈ (step cfg s0 op).2 ++
              (runOps cfg (step cfg s0 op).1 ops2).2 := by
            simpa [runOps] using he
          rcases List.mem_append.mp he2 with h | h
          · exact hstep.1 e h
          · exact hrest.1 e h
        · simpa [runOps] using hrest.2
  have hmain := main ops s hrec hnoend
  refine ⟨hmain.1, hmain.2, ?_, ?_⟩
  · intro name
    simp [step, handlePiEvent, toolcallEvtStep, hid, hrec, acpOfPi]
  · intro isErr text fs
    simp [step, handlePiEvent, toolExecEndStep, hid, mapLookup_erase_self]

/-- **C3 witness** — the session holding `t1` at `in_progress`: a
late streamed announcement for `t1` emits an `in_progress` update (no
`pending`), the record survives, and a terminal end removes it. -/
theorem C3_monotonic_status_witness :
    (∀ e ∈ (runOps cfgWitness inProgressState
        [ .piEvent (.toolcallEvt "t1" "edit") ]).2,
        ¬ emitsStatusFor "t1" .pending e)
    ∧ mapLookup (runOps cfgWitness inProgressState
        [ .piEvent (.toolcallEvt "t1" "edit") ]).1.currentToolCalls "t1" =
        some .inProgress
    ∧ (∀ name, step cfgWitness inProgressState (.piEvent (.toolcallEvt "t1" name)) =
        (inProgressState, [ .emit (.toolCallUpdate "t1" .inProgress none) ]))
    ∧ ∀ isErr text fs,
        mapLookup (step cfgWitness inProgressState
          (.piEvent (.toolExecEnd "t1" isErr text fs))).1.currentToolCalls "t1" =
          none :=
  C3_monotonic_status cfgWitness inProgressState "t1"
    [ .piEvent (.toolcallEvt "t1" "edit") ] (by decide) rfl
    (by
      intro op hop
      rcases List.mem_cons.mp hop with rfl | hop2
      · simp [isToolExecEndFor]
      · simp at hop2)


theorem runOps_append (cfg : SessCfg) (s : SessionState) (l1 l2 : List Op) :
    runOps cfg s (l1 ++ l2) =
      ((runOps cfg (runOps cfg s l1).1 l2).1,
        (runOps cfg s l1).2 ++ (runOps cfg (runOps cfg s l1).1 l2).2) := by
  induction l1 generalizing s with
  | nil => simp [runOps]
  | cons op l ih => simp [runOps, ih]

/-- With no pending startup info, `prompt()` is exactly the
enqueue-or-start logic. -/
theorem promptStep_no_startup (cfg : SessCfg) (m : String) (s : SessionState)
    (h : s.startupInfo = none) :
    promptStep cfg m s = promptEnqueue cfg m s := by
  simp [promptStep, truthyStr, h]

/-- Prompts issued while a turn is active only grow the queue, in
order, with consecutively allocated ids — no prompt command is
forwarded and nothing is settled. -/
theorem runOps_prompts_busy (cfg : SessCfg) (ms : List String) (s : SessionState)
    (a : Nat) (hsi : s.startupInfo = none) (hp : s.pendingTurn = some a) :
    (runOps cfg s (ms.map Op.promptCall)).1.turnQueue
        = s.turnQueue ++ enumFrom s.nextTurnId (ms.map cfg.expand)
    ∧ (runOps cfg s (ms.map Op.promptCall)).1.nextTurnId = s.nextTurnId + ms.length
    ∧ (runOps cfg s (ms.map Op.promptCall)).1.pendingTurn = s.pendingTurn
    ∧ (runOps cfg s (ms.map Op.promptCall)).1.startupInfo = s.startupInfo
    ∧ (runOps cfg s (ms.map Op.promptCall)).1.cancelRequested = s.cancelRequested
    ∧ (∀ e ∈ (runOps cfg s (ms.map Op.promptCall)).2, isEmitEffect e) := by
  induction ms generalizing s with
  | nil =>
      refine ⟨?_, ?_, ?_, ?_, ?_, ?_⟩ <;> simp [runOps, enumFrom]
  | cons m rest ih =>
      have hstep : step cfg s (.promptCall m) =
          ({ s with
              turnQueue := s.turnQueue ++ [(s.nextTurnId, cfg.expand m)]
              nextTurnId := s.nextTurnId + 1 },
            [ .emit (.agentMessageChunk
                s!"Queued message (position {(s.turnQueue ++ [(s.nextTurnId, cfg.expand m)]).length})."),
              .emit (.sessionInfoUpdate
                (s.turnQueue ++ [(s.nextTurnId, cfg.expand m)]).length true) ]) := by
        rw [step, promptStep_no_startup cfg m s hsi]
        simp [promptEnqueue, hp]
      have ihr := ih { s with
          turnQueue := s.turnQueue ++ [(s.nextTurnId, cfg.expand m)]
          nextTurnId := s.nextTurnId + 1 } (by simpa using hsi) (by simpa using hp)
      have hrun : runOps cfg s ((m :: rest).map Op.promptCall) =
          ((runOps cfg { s with
              turnQueue := s.turnQueue ++ [(s.nextTurnId, cfg.expand m)]
              nextTurnId := s.nextTurnId + 1 } (rest.map Op.promptCall)).1,
            (step cfg s (.promptCall m)).2 ++
              (runOps cfg { s with
                turnQueue := s.turnQueue ++ [(s.nextTurnId, cfg.expand m)]
                nextTurnId := s.nextTurnId + 1 } (rest.map Op.promptCall)).2) := by
        rw [List.map_cons, runOps, hstep]
      refine ⟨?_, ?_, ?_, ?_, ?_, ?_⟩
      · rw [hrun]
        dsimp only
        rw [ihr.1]
        simp [enumFrom]
      · rw [hrun]
        dsimp only
        rw [ihr.2.1]
        simp
        omega
      · rw [hrun]
        dsimp only
        rw [ihr.2.2.1]
      · rw [hrun]
        dsimp only
        rw [ihr.2.2.2.1]
      · rw [hrun]
        dsimp only
        rw [ihr.2.2.2.2.1]
      · intro e he
        rw [hrun] at he
        dsimp only at he
        rcases List.mem_append.mp he with h1 | h2
        · rw [hstep] at h1
          simp at h1
          rcases h1 with rfl | rfl <;> trivial
        · exact ihr.2.2.2.2.2 e h2


/-- Each `agent_end` with a queue shaped by consecutive ids resolves
the active turn `end_turn` and starts the next queued turn; `k`
successive ones consume the first `k` queued turns in FIFO order, with
never more than one turn in flight. -/
theorem runOps_agentEnds (cfg : SessCfg) (k : Nat) :
    ∀ (msgs : List String) (s : SessionState) (a : Nat),
    k ≤ msgs.length →
    s.startupInfo = none → s.cancelRequested = false →
    s.pendingTurn = some a →
    s.turnQueue = enumFrom (a + 1) msgs →
    (runOps cfg s (List.replicate k (.piEvent .agentEnd))).1.turnQueue
        = enumFrom (a + 1 + k) (msgs.drop k)
    ∧ (runOps cfg s (List.replicate k (.piEvent .agentEnd))).1.nextTurnId = s.nextTurnId
    ∧ (runOps cfg s (List.replicate k (.piEvent .agentEnd))).1.pendingTurn = some (a + k)
    ∧ (runOps cfg s (List.replicate k (.piEvent .agentEnd))).1.startupInfo = none
    ∧ (runOps cfg s (List.replicate k (.piEvent .agentEnd))).1.cancelRequested = false
    ∧ sentPrompts (runOps cfg s (List.replicate k (.piEvent .agentEnd))).2
        = enumFrom (a + 1) (msgs.take k)
    ∧ settledIds (runOps cfg s (List.replicate k (.piEvent .agentEnd))).2
        = rangeFrom a k
    ∧ resolutions (runOps cfg s (List.replicate k (.piEvent .agentEnd))).2
        = (rangeFrom a k).map (fun i => (i, StopReason.endTurn))
    ∧ activeBounded 1 (runOps cfg s (List.replicate k (.piEvent .agentEnd))).2
    ∧ activeAfter 1 (runOps cfg s (List.replicate k (.piEvent .agentEnd))).2 = 1 := by
  induction k with
  | zero =>
      intro msgs s a hk hsi hc hp hq
      refine ⟨?_, ?_, ?_, ?_, ?_, ?_, ?_, ?_, ?_, ?_⟩ <;>
        simp [runOps, hq, hp, hsi, hc, enumFrom, rangeFrom, sentPrompts,
          settledIds, resolutions, activeBounded, activeAfter]
  | succ k ih =>
      intro msgs s a hk hsi hc hp hq
      cases msgs with
      | nil => simp at hk
      | cons m rest =>
          have hqe : s.turnQueue = (a + 1, m) :: enumFrom (a + 2) rest := by
            simpa [enumFrom] using hq
          have hstep : step cfg s (.piEvent .agentEnd) =
              ({ s with
                  pendingTurn := some (a + 1)
                  turnQueue := enumFrom (a + 2) rest
                  cancelRequested := false
                  inAgentLoop := false },
                [ .resolveTurn a .endTurn,
                  .emit (.agentMessageChunk
                    s!"Starting queued message. ({(enumFrom (a + 2) rest).length} remaining)"),
                  .emit (.sessionInfoUpdate (enumFrom (a + 2) rest).length true),
                  .sendPrompt (a + 1) m ]) := by
            simp [step, handlePiEvent, agentEndStep, startTurn, hp, hc, hqe]
          have ihr := ih rest { s with
              pendingTurn := some (a + 1)
              turnQueue := enumFrom (a + 2) rest
              cancelRequested := false
              inAgentLoop := false } (a + 1)
            (by simpa using hk) (by simpa using hsi) rfl rfl rfl
          have hrun : runOps cfg s (List.replicate (k + 1) (.piEvent .agentEnd)) =
              ((runOps cfg { s with
                  pendingTurn := some (a + 1)
                  turnQueue := enumFrom (a + 2) rest
                  cancelRequested := false
                  inAgentLoop := false } (List.replicate k (.piEvent .agentEnd))).1,
                [ Effect.resolveTurn a .endTurn,
                  .emit (.agentMessageChunk
                    s!"Starting queued message. ({(enumFrom (a + 2) rest).length} remaining)"),
                  .emit (.sessionInfoUpdate (enumFrom (a + 2) rest).length true),
                  .sendPrompt (a + 1) m ] ++
                  (runOps cfg { s with
                    pendingTurn := some (a + 1)
                    turnQueue := enumFrom (a + 2) rest
                    cancelRequested := false
                    inAgentLoop := false } (List.replicate k (.piEvent .agentEnd))).2) := by
            rw [List.replicate_succ, runOps, hstep]
          refine ⟨?_, ?_, ?_, ?_, ?_, ?_, ?_, ?_, ?_, ?_⟩
          · rw [hrun]
            dsimp only
            rw [ihr.1]
            have : a + 1 + 1 + k = a + 1 + (k + 1) := by omega
            rw [this]
            rfl
          · rw [hrun]
            dsimp only
            rw [ihr.2.1]
          · rw [hrun]
            dsimp only
            rw [ihr.2.2.1]
            have : a + 1 + k = a + (k + 1) := by omega
            rw [this]
          · rw [hrun]
            dsimp only
            rw [ihr.2.2.2.1]
          · rw [hrun]
            dsimp only
            rw [ihr.2.2.2.2.1]
          · rw [hrun]
            dsimp only
            rw [sentPrompts_append, ihr.2.2.2.2.2.1]
            simp [sentPrompts, List.filterMap_cons, enumFrom]
          · rw [hrun]
            dsimp only
            rw [settledIds_append, ihr.2.2.2.2.2.2.1]
            simp [settledIds, List.filterMap_cons, rangeFrom]
          · rw [hrun]
            dsimp only
            rw [resolutions_append, ihr.2.2.2.2.2.2.2.1]
            simp [resolutions, List.filterMap_cons, rangeFrom]
          · rw [hrun]
            dsimp only
            refine activeBounded_append 1 _ _ ?_ ?_
            · simp [activeBounded, activeDelta]
            · have : activeAfter 1
                  [ Effect.resolveTurn a .endTurn,
                    .emit (.agentMessageChunk
                      s!"Starting queued message. ({(enumFrom (a + 2) rest).length} remaining)"),
                    .emit (.sessionInfoUpdate (enumFrom (a + 2) rest).length true),
                    .sendPrompt (a + 1) m ] = 1 := by
                simp [activeAfter, activeDelta]
              rw [this]
              exact ihr.2.2.2.2.2.2.2.2.1
          · rw [hrun]
            dsimp only
            rw [activeAfter_append]
            have : activeAfter 1
                [ Effect.resolveTurn a .endTurn,
                  .emit (.agentMessageChunk
                    s!"Starting queued message. ({(enumFrom (a + 2) rest).length} remaining)"),
                  .emit (.sessionInfoUpdate (enumFrom (a + 2) rest).length true),
                  .sendPrompt (a + 1) m ] = 1 := by
              simp [activeAfter, activeDelta]
            rw [this]
            exact ihr.2.2.2.2.2.2.2.2.2


/-- **C1 counterexample** — the claim as stated fails on the
command-failure resolution path: with turn 0 active and turn 1 queued,
a failure of the subprocess prompt command resolves the active turn
(`error`), the queue is non-empty, and yet no queued turn is dequeued
or started (`startTurn`'s catch deliberately does not proceed — "pi
may be unhealthy"): the session goes idle with turn 1 still queued and
only turn 0 ever forwarded. -/
theorem C1_counterexample :
    resolutions (runOps cfgWitness initSession failWithQueueOps).2 = [(0, .error)]
    ∧ (runOps cfgWitness initSession failWithQueueOps).1.turnQueue = [(1, "b")]
    ∧ (runOps cfgWitness initSession failWithQueueOps).1.pendingTurn = none
    ∧ sentPrompts (runOps cfgWitness initSession failWithQueueOps).2 = [(0, "a")] :=
  ⟨rfl, rfl, rfl, rfl⟩

/-- **C1 (amended)** — Single-flight FIFO turn serialization: from an
idle session, issuing `N = ms.length` prompts forwards exactly one
prompt command (the first message) immediately and queues the other
`N−1` in order with consecutive ids; each of `k ≤ N−1` subsequent
`agent_end` resolutions (the normal completion path) resolves the
active turn `end_turn` and dequeues and starts the next queued turn,
so after `k` resolutions exactly the first `k+1` messages have been
forwarded, in FIFO order, and the rest is still queued in order;
command-failure resolutions, by contrast, deliberately do not advance
the queue.  At no point of the effect trace is more than one turn in
flight. -/
theorem C1_fifo_serialization (cfg : SessCfg) (ms : List String) (k : Nat)
    (hk : k + 1 ≤ ms.length) :
    sentPrompts (runOps cfg initSession
        (ms.map Op.promptCall ++ List.replicate k (.piEvent .agentEnd))).2
      = enumFrom 0 ((ms.map cfg.expand).take (k + 1))
    ∧ (sentPrompts (runOps cfg initSession
        (ms.map Op.promptCall ++ List.replicate k (.piEvent .agentEnd))).2).map Prod.snd
      = (ms.map cfg.expand).take (k + 1)
    ∧ (runOps cfg initSession
        (ms.map Op.promptCall ++ List.replicate k (.piEvent .agentEnd))).1.turnQueue
      = enumFrom (k + 1) ((ms.map cfg.expand).drop (k + 1))
    ∧ settledIds (runOps cfg initSession
        (ms.map Op.promptCall ++ List.replicate k (.piEvent .agentEnd))).2
      = rangeFrom 0 k
    ∧ resolutions (runOps cfg initSession
        (ms.map Op.promptCall ++ List.replicate k (.piEvent .agentEnd))).2
      = (rangeFrom 0 k).map (fun i => (i, StopReason.endTurn))
    ∧ activeBounded 0 (runOps cfg initSession
        (ms.map Op.promptCall ++ List.replicate k (.piEvent .agentEnd))).2 := by
  cases ms with
  | nil => simp at hk
  | cons m0 rest =>
      have hA : step cfg initSession (.promptCall m0) =
          ({ initSession with pendingTurn := some 0, nextTurnId := 1 },
            [ .emit (.sessionInfoUpdate 0 true), .sendPrompt 0 (cfg.expand m0) ]) := by
        simp [step, promptStep, truthyStr, initSession, promptEnqueue, startTurn]
      have hB := runOps_prompts_busy cfg rest
        { initSession with pendingTurn := some 0, nextTurnId := 1 } 0 (by rfl) (by rfl)
      have hBq : (runOps cfg { initSession with pendingTurn := some 0, nextTurnId := 1 }
          (rest.map Op.promptCall)).1.turnQueue = enumFrom (0 + 1) (rest.map cfg.expand) := by
        rw [hB.1]
        simp [initSession]
      have hBp : (runOps cfg { initSession with pendingTurn := some 0, nextTurnId := 1 }
          (rest.map Op.promptCall)).1.pendingTurn = some 0 := by
        rw [hB.2.2.1]
      have hBsi : (runOps cfg { initSession with pendingTurn := some 0, nextTurnId := 1 }
          (rest.map Op.promptCall)).1.startupInfo = none := by
        rw [hB.2.2.2.1]
        rfl
      have hBc : (runOps cfg { initSession with pendingTurn := some 0, nextTurnId := 1 }
          (rest.map Op.promptCall)).1.cancelRequested = false := by
        rw [hB.2.2.2.2.1]
        rfl
      have hkk : k ≤ (rest.map cfg.expand).length := by
        simp at hk ⊢
        omega
      have hC := runOps_agentEnds cfg k (rest.map cfg.expand)
        (runOps cfg { initSession with pendingTurn := some 0, nextTurnId := 1 }
          (rest.map Op.promptCall)).1 0 hkk hBsi hBc hBp hBq
      have hrun : runOps cfg initSession
          ((m0 :: rest).map Op.promptCall ++ List.replicate k (.piEvent .agentEnd)) =
          ((runOps cfg (runOps cfg { initSession with pendingTurn := some 0, nextTurnId := 1 }
              (rest.map Op.promptCall)).1 (List.replicate k (.piEvent .agentEnd))).1,
            ([ Effect.emit (.sessionInfoUpdate 0 true), .sendPrompt 0 (cfg.expand m0) ] ++
              (runOps cfg { initSession with pendingTurn := some 0, nextTurnId := 1 }
                (rest.map Op.promptCall)).2) ++
              (runOps cfg (runOps cfg { initSession with pendingTurn := some 0, nextTurnId := 1 }
                (rest.map Op.promptCall)).1 (List.replicate k (.piEvent .agentEnd))).2) := by
        rw [List.map_cons, List.cons_append, runOps, hA]
        dsimp only
        rw [runOps_append]
        simp [List.append_assoc]
      refine ⟨?_, ?_, ?_, ?_, ?_, ?_⟩
      · rw [hrun]
        dsimp only
        rw [sentPrompts_append, sentPrompts_append,
          sentPrompts_of_emits _ hB.2.2.2.2.2, hC.2.2.2.2.2.1]
        simp [sentPrompts, List.filterMap_cons, enumFrom]
      · rw [hrun]
        dsimp only
        rw [sentPrompts_append, sentPrompts_append,
          sentPrompts_of_emits _ hB.2.2.2.2.2, hC.2.2.2.2.2.1]
        simp [sentPrompts, List.filterMap_cons, enumFrom_map_snd]
      · rw [hrun]
        dsimp only
        rw [hC.1]
        have : 0 + 1 + k = k + 1 := by omega
        rw [this]
        rfl
      · rw [hrun]
        dsimp only
        rw [settledIds_append, settledIds_append,
          settledIds_of_emits _ hB.2.2.2.2.2, hC.2.2.2.2.2.2.1]
        simp [settledIds, List.filterMap_cons]
      · rw [hrun]
        dsimp only
        rw [resolutions_append, resolutions_append,
          resolutions_of_emits _ hB.2.2.2.2.2, hC.2.2.2.2.2.2.2.1]
        simp [resolutions, List.filterMap_cons]
      · rw [hrun]
        dsimp only
        refine activeBounded_append 0 _ _ ?_ ?_
        · refine activeBounded_append 0 _ _ ?_ ?_
          · simp [activeBounded, activeDelta]
          · have h1 : activeAfter 0
                [ Effect.emit (.sessionInfoUpdate 0 true),
                  .sendPrompt 0 (cfg.expand m0) ] = 1 := by
              simp [activeAfter, activeDelta]
            rw [h1]
            exact activeBounded_of_emits 1 _ hB.2.2.2.2.2 (by omega)
        · rw [activeAfter_append]
          have h1 : activeAfter 0
              [ Effect.emit (.sessionInfoUpdate 0 true),
                .sendPrompt 0 (cfg.expand m0) ] = 1 := by
            simp [activeAfter, activeDelta]
          rw [h1, activeAfter_of_emits 1 _ hB.2.2.2.2.2]
          exact hC.2.2.2.2.2.2.2.2.1

/-- **C1 witness** — two prompts `a`, `b` then one `agent_end`: both
messages are forwarded in order (ids 0, 1), the queue is empty, only
turn 0 has resolved (`end_turn`), and the in-flight count never
exceeds one. -/
theorem C1_fifo_serialization_witness :
    sentPrompts (runOps cfgWitness initSession
        ((["a", "b"].map Op.promptCall) ++ List.replicate 1 (.piEvent .agentEnd))).2
      = enumFrom 0 ((["a", "b"].map cfgWitness.expand).take 2)
    ∧ (sentPrompts (runOps cfgWitness initSession
        ((["a", "b"].map Op.promptCall) ++ List.replicate 1 (.piEvent .agentEnd))).2).map Prod.snd
      = (["a", "b"].map cfgWitness.expand).take 2
    ∧ (runOps cfgWitness initSession
        ((["a", "b"].map Op.promptCall) ++ List.replicate 1 (.piEvent .agentEnd))).1.turnQueue
      = enumFrom 2 ((["a", "b"].map cfgWitness.expand).drop 2)
    ∧ settledIds (runOps cfgWitness initSession
        ((["a", "b"].map Op.promptCall) ++ List.replicate 1 (.piEvent .agentEnd))).2
      = rangeFrom 0 1
    ∧ resolutions (runOps cfgWitness initSession
        ((["a", "b"].map Op.promptCall) ++ List.replicate 1 (.piEvent .agentEnd))).2
      = (rangeFrom 0 1).map (fun i => (i, StopReason.endTurn))
    ∧ activeBounded 0 (runOps cfgWitness initSession
        ((["a", "b"].map Op.promptCall) ++ List.replicate 1 (.piEvent .agentEnd))).2 :=
  C1_fifo_serialization cfgWitness ["a", "b"] 1 (by decide)


end PiAcp
